import Mathlib

/-!
Verification development for the Passive Durability Monitor (PDM) of
`engines/ep/src/durability/passive_durability_monitor.cc`.

The C++ `State` (trackedWrites container, high-prepared and high-completed
Positions, snapshot end, counters) is embedded shallowly:

* `trackedWrites` (a `std::list<SyncWrite>`) becomes a `List SyncWrite`;
* container iterators become `Option Nat` indices into that list, with `none`
  playing the role of the one-past-end sentinel (`Container::end`); erasing a
  prefix of the list shifts the retained indices down, which models the fact
  that C++ iterators keep referencing the same element;
* exceptions become the error side of `Except`; since the C++ code may throw
  mid-operation after some fields have already been written, errors carry the
  State as it is at the throw site, so partial effects stay observable;
* `int64_t` / `uint64_t` values become `Int`, with the single
  `static_cast<uint64_t>` applied to `getBySeqno()` made explicit as a
  reduction modulo 2^64;
* the vBucket collaborator is reduced to the two values the monitor consumes:
  the persistence seqno is passed as an argument to the entry points that read
  it, and `sendSeqnoAck` calls are returned as a list of acked values.
-/

deriving instance DecidableEq for Except

namespace PassiveDurabilityMonitor

/-- Durability level of a prepare (cb::durability::Level). -/
inductive Level where
  | None
  | Majority
  | MajorityAndPersistOnMaster
  | PersistToMajority
  deriving DecidableEq, Repr

/-- Resolution of a completed prepare (PassiveDurabilityMonitor::Resolution). -/
inductive Resolution where
  | Commit
  | Abort
  | CompletionWasDeduped
  deriving DecidableEq, Repr

/-- The error kinds the monitor surfaces: std::invalid_argument,
std::logic_error, the monotonic-write violation of Position::lastWriteSeqno,
and failed Expects() contracts. -/
inductive PdmError where
  | invalidArgument
  | logicError
  | monotonicityViolation
  | expectationViolation
  deriving DecidableEq, Repr

/-- The value of `static_cast<uint64_t>(i)` for an int64 `i`, read back as a
mathematical integer in [0, 2^64). -/
def toU64 (i : Int) : Int := i % 18446744073709551616

/-- A tracked SyncWrite as stored in `State::trackedWrites`: on the passive
side the record carries a key, a seqno and a durability level (no cookie, no
chains; the timeout has already been validated at insertion). -/
structure SyncWrite where
  key : Nat
  bySeqno : Int
  level : Level
  deriving DecidableEq, Repr

/-- An incoming `queued_item`: the fields of the item that
`addSyncWrite` / the warmup constructor / `postProcessRollback` consume. -/
structure Item where
  key : Nat
  bySeqno : Int
  level : Level
  timeoutIsDefault : Bool
  deriving DecidableEq, Repr

/-- The SyncWrite record built from a queued_item by `emplace_back` /
`emplace_front`. -/
def Item.toSyncWrite (i : Item) : SyncWrite :=
  { key := i.key, bySeqno := i.bySeqno, level := i.level }

/-- Modelled from the spec: `DurabilityMonitor::Position` is declared in
`durability_monitor_impl.h`, which is not among the sources; per the spec it
pairs a weakly monotonic `lastWriteSeqno` with an iterator into trackedWrites.
The iterator is encoded as an index, `none` being the end sentinel. -/
structure Position where
  lastWriteSeqno : Int
  it : Option Nat
  deriving DecidableEq, Repr

/-- PassiveDurabilityMonitor::State. -/
structure State where
  trackedWrites : List SyncWrite
  highPreparedSeqno : Position
  highCompletedSeqno : Position
  snapshotEnd : Int
  totalAccepted : Nat
  totalCommitted : Nat
  totalAborted : Nat
  deriving DecidableEq, Repr

/-- `State::getIteratorNext`: next of the end sentinel is `begin` (which is
again the sentinel when the container is empty); otherwise `std::next`. -/
def State.getIteratorNext (s : State) (it : Option Nat) : Option Nat :=
  match it with
  | none => if s.trackedWrites.isEmpty then none else some 0
  | some i => if i + 1 < s.trackedWrites.length then some (i + 1) else none

/-- `getIteratorNext` bundled with the element it designates; `none` exactly
when `getIteratorNext` lands on the end sentinel (see
`nextElem_eq_none_iff`). -/
def State.nextElem (s : State) (it : Option Nat) : Option (Nat × SyncWrite) :=
  match s.getIteratorNext it with
  | none => none
  | some j => (s.trackedWrites.get? j).map (fun w => (j, w))

/-- Modelled from the spec: the checked-monotonic assignment to
`Position::lastWriteSeqno` (the Monotonic wrapper is declared in a header not
among the sources); writing a value strictly below the current one fails with
a MonotonicityViolation. This is the `updateHPS` lambda of
`State::updateHighPreparedSeqno`: the seqno is written before the iterator,
so a failed check leaves the State unchanged (the error carries it). -/
def State.updateHPS (s : State) (nextIt : Option Nat) (w : SyncWrite) :
    Except (PdmError × State) State :=
  if w.bySeqno < s.highPreparedSeqno.lastWriteSeqno then
    .error (.monotonicityViolation, s)
  else
    .ok { s with highPreparedSeqno := { lastWriteSeqno := w.bySeqno, it := nextIt } }

/-- The HCS advancement step of `completeSyncWrite` (same seqno-then-iterator
ordering as `State.updateHPS`, same modelled monotonic check). -/
def State.updateHCS (s : State) (nextIt : Option Nat) (w : SyncWrite) :
    Except (PdmError × State) State :=
  if w.bySeqno < s.highCompletedSeqno.lastWriteSeqno then
    .error (.monotonicityViolation, s)
  else
    .ok { s with highCompletedSeqno := { lastWriteSeqno := w.bySeqno, it := nextIt } }

/-- Effect of erasing the front element of trackedWrites on a stored iterator:
an iterator at the erased element is repositioned to the end sentinel (as
`checkForAndRemovePrepares` does explicitly); an iterator at a later element
keeps referencing the same element, i.e. its index drops by one. -/
def shiftDown : Option Nat → Option Nat
  | none => none
  | some 0 => none
  | some (i + 1) => some i

/-- The erase loop of `State::checkForAndRemovePrepares`: starting from
`begin`, erase while the entry's seqno is at most the fence, repositioning
either cursor to the end sentinel before its entry is erased. -/
def pruneFront (fence : Int) :
    List SyncWrite → Option Nat → Option Nat →
    List SyncWrite × Option Nat × Option Nat
  | [], hcsIt, hpsIt => ([], hcsIt, hpsIt)
  | w :: rest, hcsIt, hpsIt =>
    if w.bySeqno ≤ fence then
      pruneFront fence rest (shiftDown hcsIt) (shiftDown hpsIt)
    else (w :: rest, hcsIt, hpsIt)

/-- `State::checkForAndRemovePrepares`. -/
def State.checkForAndRemovePrepares (s : State) : State :=
  if s.trackedWrites.isEmpty then s
  else
    let fence := min s.highCompletedSeqno.lastWriteSeqno s.highPreparedSeqno.lastWriteSeqno
    match pruneFront fence s.trackedWrites s.highCompletedSeqno.it s.highPreparedSeqno.it with
    | (tw, hcsIt, hpsIt) =>
      { s with trackedWrites := tw,
               highCompletedSeqno := { s.highCompletedSeqno with it := hcsIt },
               highPreparedSeqno := { s.highPreparedSeqno with it := hpsIt } }

/-- Phase 1 of `State::updateHighPreparedSeqno`: blindly move the HPS up to
the last persisted snapshot-end, one `getIteratorNext` step per iteration.
The fuel argument only bounds the iteration count; the caller passes
`trackedWrites.length + 1`, which is never exhausted mid-loop. -/
def phase1 : Nat → State → Except (PdmError × State) State
  | 0, s => .ok s
  | fuel + 1, s =>
    match s.nextElem s.highPreparedSeqno.it with
    | none => .ok s
    | some (j, w) =>
      if toU64 w.bySeqno ≤ s.snapshotEnd then
        match s.updateHPS (some j) w with
        | .error e => .error e
        | .ok s1 => phase1 fuel s1
      else .ok s

/-- Phase 2 of `State::updateHighPreparedSeqno`: move the HPS up to the first
PersistToMajority prepare (the durability fence) within the received
snapshot; a Level::None entry fails the Expects contract. -/
def phase2 : Nat → State → Except (PdmError × State) State
  | 0, s => .ok s
  | fuel + 1, s =>
    match s.nextElem s.highPreparedSeqno.it with
    | none => .ok s
    | some (j, w) =>
      if toU64 w.bySeqno ≤ s.snapshotEnd then
        if w.level = Level.None then .error (.expectationViolation, s)
        else if w.level = Level.PersistToMajority then .ok s
        else
          match s.updateHPS (some j) w with
          | .error e => .error e
          | .ok s1 => phase2 fuel s1
      else .ok s

/-- `State::updateHighPreparedSeqno`, with the vBucket's persistence seqno
passed in (the C++ reads `pdm.vb.getPersistenceSeqno()`). -/
def State.updateHighPreparedSeqno (persistedSeqno : Int) (s : State) :
    Except (PdmError × State) State :=
  if s.trackedWrites.isEmpty then .ok s
  else
    let prevHPS := s.highPreparedSeqno.lastWriteSeqno
    let fuel := s.trackedWrites.length + 1
    match (if persistedSeqno ≥ s.snapshotEnd then phase1 fuel s else .ok s) with
    | .error e => .error e
    | .ok s1 =>
      match phase2 fuel s1 with
      | .error e => .error e
      | .ok s2 =>
        if s2.highPreparedSeqno.lastWriteSeqno = prevHPS then .ok s2
        else if s2.highPreparedSeqno.lastWriteSeqno > prevHPS then
          .ok s2.checkForAndRemovePrepares
        else .error (.expectationViolation, s2)

/-- `PassiveDurabilityMonitor::addSyncWrite`: reject Level::None and default
timeouts, else append to trackedWrites and count the accept. -/
def addSyncWrite (item : Item) (s : State) : Except (PdmError × State) State :=
  if item.level = Level.None then .error (.invalidArgument, s)
  else if item.timeoutIsDefault then .error (.invalidArgument, s)
  else
    .ok { s with trackedWrites := s.trackedWrites ++ [item.toSyncWrite],
                 totalAccepted := s.totalAccepted + 1 }

/-- `PassiveDurabilityMonitor::completeSyncWrite`. -/
def completeSyncWrite (key : Nat) (res : Resolution) (s : State) :
    Except (PdmError × State) State :=
  if s.trackedWrites.isEmpty then .error (.logicError, s)
  else
    match s.nextElem s.highCompletedSeqno.it with
    | none => .error (.logicError, s)
    | some (j, w) =>
      if w.key ≠ key then .error (.logicError, s)
      else
        match s.updateHCS (some j) w with
        | .error e => .error e
        | .ok s1 =>
          let s2 := s1.checkForAndRemovePrepares
          match res with
          | .Commit => .ok { s2 with totalCommitted := s2.totalCommitted + 1 }
          | .Abort => .ok { s2 with totalAborted := s2.totalAborted + 1 }
          | .CompletionWasDeduped => .ok s2

/-- `PassiveDurabilityMonitor::notifySnapshotEndReceived`. The returned list
holds the argument of the `vb.sendSeqnoAck` call when one is made.
Modelled from the spec: the `State::snapshotEnd` member's Monotonic type is
declared in the header (not among the sources); per the spec a non-increasing
assignment is a no-op, i.e. the store keeps the max of old and new. -/
def notifySnapshotEndReceived (persistedSeqno snapEnd : Int) (s : State) :
    Except (PdmError × State) (State × List Int) :=
  let s0 := { s with snapshotEnd := max s.snapshotEnd snapEnd }
  let prevHps := s0.highPreparedSeqno.lastWriteSeqno
  match s0.updateHighPreparedSeqno persistedSeqno with
  | .error e => .error e
  | .ok s1 =>
    if s1.highPreparedSeqno.lastWriteSeqno = prevHps then .ok (s1, [])
    else if s1.highPreparedSeqno.lastWriteSeqno > prevHps then
      .ok (s1, [s1.highPreparedSeqno.lastWriteSeqno])
    else .error (.expectationViolation, s1)

/-- `PassiveDurabilityMonitor::notifyLocalPersistence`. -/
def notifyLocalPersistence (persistedSeqno : Int) (s : State) :
    Except (PdmError × State) (State × List Int) :=
  let prevHps := s.highPreparedSeqno.lastWriteSeqno
  match s.updateHighPreparedSeqno persistedSeqno with
  | .error e => .error e
  | .ok s1 =>
    if s1.highPreparedSeqno.lastWriteSeqno = prevHps then .ok (s1, [])
    else if s1.highPreparedSeqno.lastWriteSeqno > prevHps then
      .ok (s1, [s1.highPreparedSeqno.lastWriteSeqno])
    else .error (.expectationViolation, s1)

/-- The `RollbackResult` handed over by the rollback engine. -/
structure RollbackResult where
  highCompletedSeqno : Int
  highPreparedSeqno : Int
  highSeqno : Int
  preparesToAdd : List Item
  deriving DecidableEq, Repr

/-- `PassiveDurabilityMonitor::postProcessRollback`: check the seqno sanity
Expects, re-instate rolled-back prepares above the new HCS by pushing them to
the front in reverse order, drop every entry from the first one past the
rollback point (`find_if` + `erase` to end), reset HCS to the end sentinel
with an unchecked seqno write, and repoint HPS at the last tracked entry when
one exists (the C++ has no else branch: on an empty container the iterator
member keeps its previous value). -/
def postProcessRollback (rb : RollbackResult) (s : State) :
    Except (PdmError × State) State :=
  if ¬ rb.highCompletedSeqno ≤ rb.highPreparedSeqno then
    .error (.expectationViolation, s)
  else if ¬ rb.highPreparedSeqno ≤ rb.highSeqno then
    .error (.expectationViolation, s)
  else
    let tw1 := rb.preparesToAdd.reverse.foldl
      (fun tw item =>
        if toU64 item.bySeqno > rb.highCompletedSeqno then item.toSyncWrite :: tw
        else tw)
      s.trackedWrites
    let tw2 := tw1.takeWhile (fun w => decide (toU64 w.bySeqno ≤ rb.highSeqno))
    let s1 := { s with
      trackedWrites := tw2,
      highCompletedSeqno := { lastWriteSeqno := rb.highCompletedSeqno, it := none } }
    let s2 :=
      if s1.trackedWrites.isEmpty then s1
      else { s1 with highPreparedSeqno :=
        { s1.highPreparedSeqno with it := some (s1.trackedWrites.length - 1) } }
    .ok { s2 with highPreparedSeqno :=
      { s2.highPreparedSeqno with lastWriteSeqno := rb.highPreparedSeqno } }

/-- The State built by the plain constructor: empty container, both Positions
at the end sentinel with seqno 0, snapshot end 0, zeroed counters. -/
def pdmInitial : State :=
  { trackedWrites := []
    highPreparedSeqno := { lastWriteSeqno := 0, it := none }
    highCompletedSeqno := { lastWriteSeqno := 0, it := none }
    snapshotEnd := 0
    totalAccepted := 0
    totalCommitted := 0
    totalAborted := 0 }

/-- The warmup constructor `PassiveDurabilityMonitor(VBucket&,
std::vector<queued_item>&&)`: delegate to the plain constructor, then append
each outstanding prepare, Expects-checking its timeout; `totalAccepted` is
never touched. -/
def pdmInitWithOutstanding (outstandingPrepares : List Item) :
    Except (PdmError × State) State :=
  outstandingPrepares.foldlM
    (fun s p =>
      if p.timeoutIsDefault then .error (.expectationViolation, s)
      else .ok { s with trackedWrites := s.trackedWrites ++ [p.toSyncWrite] })
    pdmInitial

/-- `PassiveDurabilityMonitor::getNumTracked`. -/
def getNumTracked (s : State) : Nat := s.trackedWrites.length

/-- `PassiveDurabilityMonitor::getNumAccepted`. -/
def getNumAccepted (s : State) : Nat := s.totalAccepted

/-- `PassiveDurabilityMonitor::getNumCommitted`. -/
def getNumCommitted (s : State) : Nat := s.totalCommitted

/-- `PassiveDurabilityMonitor::getNumAborted`. -/
def getNumAborted (s : State) : Nat := s.totalAborted

/-- `PassiveDurabilityMonitor::getHighPreparedSeqno`. -/
def getHighPreparedSeqno (s : State) : Int := s.highPreparedSeqno.lastWriteSeqno

/-- `PassiveDurabilityMonitor::getHighCompletedSeqno`. -/
def getHighCompletedSeqno (s : State) : Int := s.highCompletedSeqno.lastWriteSeqno

/-- One invocation of a public mutating entry point, with the persistence
seqno the vBucket would report passed alongside where it is consumed. -/
inductive Op where
  | add (item : Item)
  | complete (key : Nat) (res : Resolution)
  | snapshotEndReceived (persistedSeqno snapEnd : Int)
  | localPersistence (persistedSeqno : Int)
  | rollback (rb : RollbackResult)
  deriving DecidableEq, Repr

/-- Whether the operation is a completeSyncWrite call. -/
def Op.isComplete : Op → Bool
  | .complete _ _ => true
  | _ => false

/-- Whether the operation is a postProcessRollback call. -/
def Op.isRollback : Op → Bool
  | .rollback _ => true
  | _ => false

/-- Run one public operation; the list collects the seqno-ack emissions. -/
def runOp (s : State) : Op → Except (PdmError × State) (State × List Int)
  | .add item =>
    match addSyncWrite item s with
    | .error e => .error e
    | .ok s1 => .ok (s1, [])
  | .complete key res =>
    match completeSyncWrite key res s with
    | .error e => .error e
    | .ok s1 => .ok (s1, [])
  | .snapshotEndReceived p e => notifySnapshotEndReceived p e s
  | .localPersistence p => notifyLocalPersistence p s
  | .rollback rb =>
    match postProcessRollback rb s with
    | .error e => .error e
    | .ok s1 => .ok (s1, [])

/-- Run a sequence of public operations, concatenating the ack emissions in
order. -/
def runOps : State → List Op → Except (PdmError × State) (State × List Int)
  | s, [] => .ok (s, [])
  | s, op :: ops =>
    match runOp s op with
    | .error e => .error e
    | .ok (s1, a1) =>
      match runOps s1 ops with
      | .error e => .error e
      | .ok (s2, a2) => .ok (s2, a1 ++ a2)

/-- The final state of a run, when it did not throw. -/
def finalStateOf (r : Except (PdmError × State) (State × List Int)) : Option State :=
  match r with
  | .ok (t, _) => some t
  | .error _ => none

/-- The ack emissions of a run, when it did not throw. -/
def acksOf (r : Except (PdmError × State) (State × List Int)) : Option (List Int) :=
  match r with
  | .ok (_, a) => some a
  | .error _ => none

/-- trackedWrites is seqno-sorted (invariant I1 of the spec). -/
abbrev seqnoSorted (l : List SyncWrite) : Prop :=
  l.Pairwise (fun a b => a.bySeqno < b.bySeqno)

/-- The fence used by checkForAndRemovePrepares. -/
def pruneFence (s : State) : Int :=
  min s.highCompletedSeqno.lastWriteSeqno s.highPreparedSeqno.lastWriteSeqno

/-- The number of entries checkForAndRemovePrepares erases. -/
def kRemoved (s : State) : Nat :=
  (s.trackedWrites.takeWhile (fun w => decide (w.bySeqno ≤ pruneFence s))).length

/-- Effect of erasing the first `k` elements on a stored iterator: reset to
the end sentinel if it pointed into the erased prefix, otherwise keep
designating the same element (index drops by `k`). -/
def shiftIter (k : Nat) : Option Nat → Option Nat
  | none => none
  | some i => if i < k then none else some (i - k)

/-- Everything except the highPreparedSeqno Position agrees between two
states: the frame of the two advancement loops. -/
def hpsOnly (s t : State) : Prop :=
  t.trackedWrites = s.trackedWrites ∧
  t.highCompletedSeqno = s.highCompletedSeqno ∧
  t.snapshotEnd = s.snapshotEnd ∧
  t.totalAccepted = s.totalAccepted ∧
  t.totalCommitted = s.totalCommitted ∧
  t.totalAborted = s.totalAborted

/-- The two advancement phases of one updateHighPreparedSeqno call, with the
fuel that call supplies. -/
def phasesOk (p : Int) (s s2 : State) : Prop :=
  (p ≥ s.snapshotEnd ∧ ∃ s1, phase1 (s.trackedWrites.length + 1) s = .ok s1 ∧
      phase2 (s.trackedWrites.length + 1) s1 = .ok s2) ∨
  (¬ p ≥ s.snapshotEnd ∧ phase2 (s.trackedWrites.length + 1) s = .ok s2)

/-- How many further advancement steps the HPS cursor can take before hitting
the end of the container. -/
def remainingSteps (s : State) : Nat :=
  s.trackedWrites.length -
    (match s.highPreparedSeqno.it with
     | none => 0
     | some i => i + 1)

/-- The negation of the Phase 2 loop condition: the entry after the HPS
cursor (if any) either lies beyond the received snapshot or is the
PersistToMajority durability fence. -/
def phase2Blocked (s : State) : Prop :=
  match s.nextElem s.highPreparedSeqno.it with
  | none => True
  | some (_, w) => toU64 w.bySeqno ≤ s.snapshotEnd → w.level = Level.PersistToMajority

/-- A Majority-level prepare item with an explicit (non-default) timeout, as
the active streams them. -/
def mItem (k : Nat) (sq : Int) : Item :=
  { key := k, bySeqno := sq, level := Level.Majority, timeoutIsDefault := false }

/-- Scenario of spec item 2: tracked prepares 1(Majority),
2(PersistToMajority), 3(Majority); HPS = HCS = 0 with end cursors. -/
def scenarioC1 : State :=
  { trackedWrites :=
      [{ key := 1, bySeqno := 1, level := Level.Majority },
       { key := 2, bySeqno := 2, level := Level.PersistToMajority },
       { key := 3, bySeqno := 3, level := Level.Majority }]
    highPreparedSeqno := { lastWriteSeqno := 0, it := none }
    highCompletedSeqno := { lastWriteSeqno := 0, it := none }
    snapshotEnd := 0
    totalAccepted := 0
    totalCommitted := 0
    totalAborted := 0 }

/-- The state after `notifySnapshotEndReceived(3)` with persistence seqno 0:
HPS stopped at 1, right before the PersistToMajority fence at 2. -/
def scenarioC1Mid : State :=
  { scenarioC1 with
    highPreparedSeqno := { lastWriteSeqno := 1, it := some 0 }
    snapshotEnd := 3 }

/-- The state after the snapshot is persisted and `notifyLocalPersistence()`
runs: HPS swept to 3. -/
def scenarioC1End : State :=
  { scenarioC1 with
    highPreparedSeqno := { lastWriteSeqno := 3, it := some 2 }
    snapshotEnd := 3 }

/-- Operation sequence showing completeSyncWrite driving HCS past HPS: two
Majority prepares, snapshot end 1 received (HPS = 1), then both completed in
order (HCS = 2). -/
def opsC2 : List Op :=
  [Op.add (mItem 1 1), Op.add (mItem 2 2),
   Op.snapshotEndReceived 0 1,
   Op.complete 1 Resolution.Commit, Op.complete 2 Resolution.Commit]

/-- A single addSyncWrite of a prepare whose bySeqno (0) is not above
min(HPS, HCS).lastWriteSeqno (0). -/
def opsC5 : List Op :=
  [Op.add (mItem 1 0)]

/-- Ack trace with a rollback in the middle: ack(2) is emitted, the rollback
resets HPS to 1, and re-applying the stream emits ack(2) again. -/
def opsC7 : List Op :=
  [Op.add (mItem 1 1), Op.add (mItem 2 2),
   Op.snapshotEndReceived 0 2,
   Op.rollback { highCompletedSeqno := 0, highPreparedSeqno := 1,
                 highSeqno := 1, preparesToAdd := [] },
   Op.add (mItem 2 2),
   Op.snapshotEndReceived 0 2]

/-- A short rollback-free trace emitting one ack. -/
def opsW7 : List Op :=
  [Op.add (mItem 1 1), Op.snapshotEndReceived 0 1]

/-- The final state of `opsW7` from the initial state. -/
def sW7 : State :=
  { trackedWrites := [{ key := 1, bySeqno := 1, level := Level.Majority }]
    highPreparedSeqno := { lastWriteSeqno := 1, it := some 0 }
    highCompletedSeqno := { lastWriteSeqno := 0, it := none }
    snapshotEnd := 1
    totalAccepted := 1
    totalCommitted := 0
    totalAborted := 0 }

/-- A state whose HPS cursor references the last of two tracked Majority
prepares (reachable by adding 1(M), 2(M) and receiving snapshot end 2). -/
def sC4 : State :=
  { trackedWrites :=
      [{ key := 1, bySeqno := 1, level := Level.Majority },
       { key := 2, bySeqno := 2, level := Level.Majority }]
    highPreparedSeqno := { lastWriteSeqno := 2, it := some 1 }
    highCompletedSeqno := { lastWriteSeqno := 0, it := none }
    snapshotEnd := 2
    totalAccepted := 2
    totalCommitted := 0
    totalAborted := 0 }

/-- A rollback to seqno 0 (all prepares truncated, nothing reinstated). -/
def rbC4 : RollbackResult :=
  { highCompletedSeqno := 0, highPreparedSeqno := 0, highSeqno := 0,
    preparesToAdd := [] }

/-- What postProcessRollback rbC4 leaves behind: an empty container whose HPS
iterator still holds the stale index 1. -/
def sC4after : State :=
  { trackedWrites := []
    highPreparedSeqno := { lastWriteSeqno := 0, it := some 1 }
    highCompletedSeqno := { lastWriteSeqno := 0, it := none }
    snapshotEnd := 2
    totalAccepted := 2
    totalCommitted := 0
    totalAborted := 0 }

/-- Result of completing key 1 on `sC4`: entry 1 pruned, HPS cursor slides to
the surviving entry (index 0), HPS seqno untouched. -/
def sC10res : State :=
  { trackedWrites := [{ key := 2, bySeqno := 2, level := Level.Majority }]
    highPreparedSeqno := { lastWriteSeqno := 2, it := some 0 }
    highCompletedSeqno := { lastWriteSeqno := 1, it := none }
    snapshotEnd := 2
    totalAccepted := 2
    totalCommitted := 1
    totalAborted := 0 }

/-- An empty monitor that has already seen snapshot end 3. -/
def sSnap3 : State :=
  { trackedWrites := []
    highPreparedSeqno := { lastWriteSeqno := 0, it := none }
    highCompletedSeqno := { lastWriteSeqno := 0, it := none }
    snapshotEnd := 3
    totalAccepted := 0
    totalCommitted := 0
    totalAborted := 0 }

/-- `sSnap3` after receiving snapshot end 5. -/
def sSnap5 : State :=
  { sSnap3 with snapshotEnd := 5 }

/-- A state on which checkForAndRemovePrepares removes exactly the prepare at
seqno 1 (both lastWriteSeqnos are 1). -/
def sPrune : State :=
  { trackedWrites :=
      [{ key := 1, bySeqno := 1, level := Level.Majority },
       { key := 2, bySeqno := 2, level := Level.Majority }]
    highPreparedSeqno := { lastWriteSeqno := 1, it := some 0 }
    highCompletedSeqno := { lastWriteSeqno := 1, it := some 0 }
    snapshotEnd := 1
    totalAccepted := 2
    totalCommitted := 1
    totalAborted := 0 }

/-- A queued_item carrying Level::None. -/
def itemNone : Item :=
  { key := 1, bySeqno := 1, level := Level.None, timeoutIsDefault := false }

theorem shiftIter_zero (it : Option Nat) : shiftIter 0 it = it := by
  cases it <;> simp [shiftIter]

theorem shiftIter_succ (k : Nat) (it : Option Nat) :
    shiftIter (k + 1) it = shiftIter k (shiftDown it) := by
  cases it with
  | none => rfl
  | some i =>
    cases i with
    | zero => simp [shiftIter, shiftDown]
    | succ i => simp [shiftIter, shiftDown, Nat.succ_lt_succ_iff, Nat.succ_sub_succ]

theorem pruneFront_eq (fence : Int) :
    ∀ (l : List SyncWrite) (hcsIt hpsIt : Option Nat),
      pruneFront fence l hcsIt hpsIt =
        (l.dropWhile (fun w => decide (w.bySeqno ≤ fence)),
         shiftIter (l.takeWhile (fun w => decide (w.bySeqno ≤ fence))).length hcsIt,
         shiftIter (l.takeWhile (fun w => decide (w.bySeqno ≤ fence))).length hpsIt) := by
  intro l
  induction l with
  | nil => intro hcsIt hpsIt; simp [pruneFront, shiftIter_zero]
  | cons w l ih =>
    intro hcsIt hpsIt
    by_cases hb : w.bySeqno ≤ fence
    · rw [pruneFront, if_pos hb, ih]
      simp [List.dropWhile_cons, List.takeWhile_cons, hb, shiftIter_succ]
    · rw [pruneFront, if_neg hb]
      simp [List.dropWhile_cons, List.takeWhile_cons, hb, shiftIter_zero]

theorem checkForAndRemovePrepares_eq (s : State) :
    s.checkForAndRemovePrepares =
      { s with
        trackedWrites := s.trackedWrites.dropWhile (fun w => decide (w.bySeqno ≤ pruneFence s)),
        highCompletedSeqno :=
          { s.highCompletedSeqno with it := shiftIter (kRemoved s) s.highCompletedSeqno.it },
        highPreparedSeqno :=
          { s.highPreparedSeqno with it := shiftIter (kRemoved s) s.highPreparedSeqno.it } } := by
  obtain ⟨tw, hps, hcs, se, ta, tc, tb⟩ := s
  unfold State.checkForAndRemovePrepares
  by_cases he : tw.isEmpty = true
  · have hnil : tw = [] := by simpa [List.isEmpty_iff] using he
    subst hnil
    simp [kRemoved, pruneFence, shiftIter_zero]
  · rw [if_neg he]
    dsimp only
    rw [pruneFront_eq]
    simp [kRemoved, pruneFence]

/-- dropWhile is drop of the takeWhile length. -/
theorem dropWhile_eq_drop {α : Type} (p : α → Bool) (l : List α) :
    l.dropWhile p = l.drop (l.takeWhile p).length := by
  induction l with
  | nil => rfl
  | cons a l ih =>
    by_cases hp : p a
    · simp [List.dropWhile_cons, List.takeWhile_cons, hp, ih]
    · simp [List.dropWhile_cons, List.takeWhile_cons, hp]

/-- On a seqno-sorted container, every entry surviving the prune loop is
strictly above the fence. -/
theorem sorted_dropWhile_fence (fence : Int) :
    ∀ l : List SyncWrite, seqnoSorted l →
      ∀ w ∈ l.dropWhile (fun w => decide (w.bySeqno ≤ fence)), fence < w.bySeqno := by
  intro l
  induction l with
  | nil => intro _ w hw; simp at hw
  | cons a l ih =>
    intro hs w hw
    have hp := List.pairwise_cons.mp hs
    by_cases hb : a.bySeqno ≤ fence
    · rw [List.dropWhile_cons, if_pos (by simpa using hb)] at hw
      exact ih hp.2 w hw
    · rw [List.dropWhile_cons, if_neg (by simpa using hb)] at hw
      rcases List.mem_cons.mp hw with h | h
      · subst h; exact lt_of_not_le hb
      · exact lt_trans (lt_of_not_le hb) (hp.1 w h)

theorem getIteratorNext_lt {s : State} {it : Option Nat} {j : Nat}
    (h : s.getIteratorNext it = some j) : j < s.trackedWrites.length := by
  cases it with
  | none =>
    unfold State.getIteratorNext at h
    by_cases he : s.trackedWrites.isEmpty = true
    · rw [if_pos he] at h; exact absurd h (by simp)
    · rw [if_neg he] at h
      injection h with h
      subst h
      have hne : s.trackedWrites ≠ [] := by
        intro hnil; exact he (by simp [hnil])
      exact List.length_pos.mpr hne
  | some i =>
    unfold State.getIteratorNext at h
    dsimp only at h
    by_cases hlt : i + 1 < s.trackedWrites.length
    · rw [if_pos hlt] at h
      injection h with h
      subst h
      exact hlt
    · rw [if_neg hlt] at h; exact absurd h (by simp)

theorem getIteratorNext_some {s : State} {it : Option Nat} {j : Nat}
    (h : s.getIteratorNext it = some j) :
    (it = none ∧ j = 0 ∧ 0 < s.trackedWrites.length) ∨
    (∃ i, it = some i ∧ j = i + 1 ∧ i + 1 < s.trackedWrites.length) := by
  cases it with
  | none =>
    unfold State.getIteratorNext at h
    by_cases he : s.trackedWrites.isEmpty = true
    · rw [if_pos he] at h; exact absurd h (by simp)
    · rw [if_neg he] at h
      injection h with h
      subst h
      have hne : s.trackedWrites ≠ [] := by
        intro hnil; exact he (by simp [hnil])
      exact Or.inl ⟨rfl, rfl, List.length_pos.mpr hne⟩
  | some i =>
    unfold State.getIteratorNext at h
    dsimp only at h
    by_cases hlt : i + 1 < s.trackedWrites.length
    · rw [if_pos hlt] at h
      injection h with h
      subst h
      exact Or.inr ⟨i, rfl, rfl, hlt⟩
    · rw [if_neg hlt] at h; exact absurd h (by simp)

theorem nextElem_some {s : State} {it : Option Nat} {j : Nat} {w : SyncWrite}
    (h : s.nextElem it = some (j, w)) :
    s.getIteratorNext it = some j ∧ s.trackedWrites.get? j = some w := by
  unfold State.nextElem at h
  cases hg : s.getIteratorNext it with
  | none => rw [hg] at h; exact absurd h (by simp)
  | some j0 =>
    rw [hg] at h
    dsimp only at h
    rcases Option.map_eq_some'.mp h with ⟨w0, hw0, hpair⟩
    have hj : j0 = j := congrArg Prod.fst hpair
    have hw : w0 = w := congrArg Prod.snd hpair
    constructor
    · rw [← hj]
    · rw [← hj, ← hw]; exact hw0

theorem nextElem_eq_none_iff (s : State) (it : Option Nat) :
    s.nextElem it = none ↔ s.getIteratorNext it = none := by
  constructor
  · intro h
    cases hg : s.getIteratorNext it with
    | none => rfl
    | some j =>
      have hlt := getIteratorNext_lt hg
      unfold State.nextElem at h
      rw [hg] at h
      dsimp only at h
      rw [Option.map_eq_none'] at h
      rw [List.get?_eq_none] at h
      omega
  · intro h; unfold State.nextElem; rw [h]

theorem nextElem_mem {s : State} {it : Option Nat} {j : Nat} {w : SyncWrite}
    (h : s.nextElem it = some (j, w)) : w ∈ s.trackedWrites := by
  have h2 := (nextElem_some h).2
  exact List.get?_mem h2


theorem hpsOnly_refl (s : State) : hpsOnly s s :=
  ⟨rfl, rfl, rfl, rfl, rfl, rfl⟩

theorem hpsOnly_trans {a b c : State} (h1 : hpsOnly a b) (h2 : hpsOnly b c) :
    hpsOnly a c := by
  obtain ⟨t1, t2, t3, t4, t5, t6⟩ := h1
  obtain ⟨u1, u2, u3, u4, u5, u6⟩ := h2
  exact ⟨u1.trans t1, u2.trans t2, u3.trans t3, u4.trans t4, u5.trans t5, u6.trans t6⟩

theorem updateHPS_ok {s : State} {nIt : Option Nat} {w : SyncWrite} {s1 : State}
    (h : s.updateHPS nIt w = .ok s1) :
    s1 = { s with highPreparedSeqno := { lastWriteSeqno := w.bySeqno, it := nIt } } ∧
    s.highPreparedSeqno.lastWriteSeqno ≤ w.bySeqno := by
  unfold State.updateHPS at h
  by_cases hc : w.bySeqno < s.highPreparedSeqno.lastWriteSeqno
  · rw [if_pos hc] at h; exact absurd h (by simp)
  · rw [if_neg hc] at h
    injection h with h
    exact ⟨h.symm, le_of_not_lt hc⟩

theorem updateHPS_error {s : State} {nIt : Option Nat} {w : SyncWrite}
    {err : PdmError} {t : State} (h : s.updateHPS nIt w = .error (err, t)) :
    t = s ∧ err = .monotonicityViolation := by
  unfold State.updateHPS at h
  by_cases hc : w.bySeqno < s.highPreparedSeqno.lastWriteSeqno
  · rw [if_pos hc] at h
    injection h with h
    exact ⟨(congrArg Prod.snd h).symm, (congrArg Prod.fst h).symm⟩
  · rw [if_neg hc] at h; exact absurd h (by simp)

theorem updateHCS_ok {s : State} {nIt : Option Nat} {w : SyncWrite} {s1 : State}
    (h : s.updateHCS nIt w = .ok s1) :
    s1 = { s with highCompletedSeqno := { lastWriteSeqno := w.bySeqno, it := nIt } } ∧
    s.highCompletedSeqno.lastWriteSeqno ≤ w.bySeqno := by
  unfold State.updateHCS at h
  by_cases hc : w.bySeqno < s.highCompletedSeqno.lastWriteSeqno
  · rw [if_pos hc] at h; exact absurd h (by simp)
  · rw [if_neg hc] at h
    injection h with h
    exact ⟨h.symm, le_of_not_lt hc⟩

theorem updateHCS_error {s : State} {nIt : Option Nat} {w : SyncWrite}
    {err : PdmError} {t : State} (h : s.updateHCS nIt w = .error (err, t)) :
    t = s ∧ err = .monotonicityViolation := by
  unfold State.updateHCS at h
  by_cases hc : w.bySeqno < s.highCompletedSeqno.lastWriteSeqno
  · rw [if_pos hc] at h
    injection h with h
    exact ⟨(congrArg Prod.snd h).symm, (congrArg Prod.fst h).symm⟩
  · rw [if_neg hc] at h; exact absurd h (by simp)

theorem phase1_frame :
    ∀ (fuel : Nat) (s : State),
      (∀ s', phase1 fuel s = .ok s' → hpsOnly s s') ∧
      (∀ err t, phase1 fuel s = .error (err, t) → hpsOnly s t) := by
  intro fuel
  induction fuel with
  | zero =>
    intro s
    constructor
    · intro s' h
      simp only [phase1] at h
      injection h with h
      exact h ▸ hpsOnly_refl s
    · intro err t h
      simp only [phase1] at h
      exact absurd h (by simp)
  | succ fuel ih =>
    intro s
    constructor
    · intro s' h
      rcases hne : s.nextElem s.highPreparedSeqno.it with _ | ⟨j, w⟩ <;>
        simp only [phase1, hne] at h
      · injection h with h
        exact h ▸ hpsOnly_refl s
      · by_cases hc : toU64 w.bySeqno ≤ s.snapshotEnd
        · rw [if_pos hc] at h
          cases hu : s.updateHPS (some j) w with
          | error e => rw [hu] at h; exact absurd h (by simp)
          | ok s1 =>
            rw [hu] at h
            have h1 := (updateHPS_ok hu).1
            have hstep : hpsOnly s s1 := by
              subst h1; exact ⟨rfl, rfl, rfl, rfl, rfl, rfl⟩
            exact hpsOnly_trans hstep ((ih s1).1 s' h)
        · rw [if_neg hc] at h
          injection h with h
          exact h ▸ hpsOnly_refl s
    · intro err t h
      rcases hne : s.nextElem s.highPreparedSeqno.it with _ | ⟨j, w⟩ <;>
        simp only [phase1, hne] at h
      · exact absurd h (by simp)
      · by_cases hc : toU64 w.bySeqno ≤ s.snapshotEnd
        · rw [if_pos hc] at h
          cases hu : s.updateHPS (some j) w with
          | error e =>
            rw [hu] at h
            injection h with h
            obtain ⟨e1, e2⟩ := e
            have he := updateHPS_error (h ▸ hu)
            exact he.1 ▸ hpsOnly_refl s
          | ok s1 =>
            rw [hu] at h
            have h1 := (updateHPS_ok hu).1
            have hstep : hpsOnly s s1 := by
              subst h1; exact ⟨rfl, rfl, rfl, rfl, rfl, rfl⟩
            exact hpsOnly_trans hstep ((ih s1).2 err t h)
        · rw [if_neg hc] at h; exact absurd h (by simp)

theorem phase2_frame :
    ∀ (fuel : Nat) (s : State),
      (∀ s', phase2 fuel s = .ok s' → hpsOnly s s') ∧
      (∀ err t, phase2 fuel s = .error (err, t) → hpsOnly s t) := by
  intro fuel
  induction fuel with
  | zero =>
    intro s
    constructor
    · intro s' h
      simp only [phase2] at h
      injection h with h
      exact h ▸ hpsOnly_refl s
    · intro err t h
      simp only [phase2] at h
      exact absurd h (by simp)
  | succ fuel ih =>
    intro s
    constructor
    · intro s' h
      rcases hne : s.nextElem s.highPreparedSeqno.it with _ | ⟨j, w⟩ <;>
        simp only [phase2, hne] at h
      · injection h with h
        exact h ▸ hpsOnly_refl s
      · by_cases hc : toU64 w.bySeqno ≤ s.snapshotEnd
        · rw [if_pos hc] at h
          by_cases hn : w.level = Level.None
          · rw [if_pos hn] at h; exact absurd h (by simp)
          · rw [if_neg hn] at h
            by_cases hp : w.level = Level.PersistToMajority
            · rw [if_pos hp] at h
              injection h with h
              exact h ▸ hpsOnly_refl s
            · rw [if_neg hp] at h
              cases hu : s.updateHPS (some j) w with
              | error e => rw [hu] at h; exact absurd h (by simp)
              | ok s1 =>
                rw [hu] at h
                have h1 := (updateHPS_ok hu).1
                have hstep : hpsOnly s s1 := by
                  subst h1; exact ⟨rfl, rfl, rfl, rfl, rfl, rfl⟩
                exact hpsOnly_trans hstep ((ih s1).1 s' h)
        · rw [if_neg hc] at h
          injection h with h
          exact h ▸ hpsOnly_refl s
    · intro err t h
      rcases hne : s.nextElem s.highPreparedSeqno.it with _ | ⟨j, w⟩ <;>
        simp only [phase2, hne] at h
      · exact absurd h (by simp)
      · by_cases hc : toU64 w.bySeqno ≤ s.snapshotEnd
        · rw [if_pos hc] at h
          by_cases hn : w.level = Level.None
          · rw [if_pos hn] at h
            injection h with h
            have ht : s = t := congrArg Prod.snd h
            exact ht ▸ hpsOnly_refl s
          · rw [if_neg hn] at h
            by_cases hp : w.level = Level.PersistToMajority
            · rw [if_pos hp] at h; exact absurd h (by simp)
            · rw [if_neg hp] at h
              cases hu : s.updateHPS (some j) w with
              | error e =>
                rw [hu] at h
                injection h with h
                obtain ⟨e1, e2⟩ := e
                have he := updateHPS_error (h ▸ hu)
                exact he.1 ▸ hpsOnly_refl s
              | ok s1 =>
                rw [hu] at h
                have h1 := (updateHPS_ok hu).1
                have hstep : hpsOnly s s1 := by
                  subst h1; exact ⟨rfl, rfl, rfl, rfl, rfl, rfl⟩
                exact hpsOnly_trans hstep ((ih s1).2 err t h)
        · rw [if_neg hc] at h; exact absurd h (by simp)

theorem prune_frame (s : State) :
    s.checkForAndRemovePrepares.highPreparedSeqno.lastWriteSeqno =
      s.highPreparedSeqno.lastWriteSeqno ∧
    s.checkForAndRemovePrepares.highCompletedSeqno.lastWriteSeqno =
      s.highCompletedSeqno.lastWriteSeqno ∧
    s.checkForAndRemovePrepares.snapshotEnd = s.snapshotEnd ∧
    s.checkForAndRemovePrepares.totalAccepted = s.totalAccepted ∧
    s.checkForAndRemovePrepares.totalCommitted = s.totalCommitted ∧
    s.checkForAndRemovePrepares.totalAborted = s.totalAborted := by
  rw [checkForAndRemovePrepares_eq]
  exact ⟨rfl, rfl, rfl, rfl, rfl, rfl⟩


theorem phasesOk_hpsOnly {p : Int} {s s2 : State} (h : phasesOk p s s2) :
    hpsOnly s s2 := by
  rcases h with ⟨-, s1, h1, h2⟩ | ⟨-, h2⟩
  · exact hpsOnly_trans ((phase1_frame _ s).1 s1 h1) ((phase2_frame _ s1).1 s2 h2)
  · exact (phase2_frame _ s).1 s2 h2

theorem updateHighPreparedSeqno_ok_inv {p : Int} {s s' : State}
    (h : s.updateHighPreparedSeqno p = .ok s') :
    (s.trackedWrites.isEmpty = true ∧ s' = s) ∨
    ∃ s2, phasesOk p s s2 ∧
      ((s2.highPreparedSeqno.lastWriteSeqno = s.highPreparedSeqno.lastWriteSeqno ∧
        s' = s2) ∨
       (s.highPreparedSeqno.lastWriteSeqno < s2.highPreparedSeqno.lastWriteSeqno ∧
        s' = s2.checkForAndRemovePrepares)) := by
  unfold State.updateHighPreparedSeqno at h
  by_cases he : s.trackedWrites.isEmpty = true
  · rw [if_pos he] at h
    injection h with h
    exact Or.inl ⟨he, h.symm⟩
  · rw [if_neg he] at h
    dsimp only at h
    refine Or.inr ?_
    by_cases hp : p ≥ s.snapshotEnd
    · rw [if_pos hp] at h
      cases h1 : phase1 (s.trackedWrites.length + 1) s with
      | error e => rw [h1] at h; exact absurd h (by simp)
      | ok s1 =>
        rw [h1] at h
        dsimp only at h
        cases h2 : phase2 (s.trackedWrites.length + 1) s1 with
        | error e => rw [h2] at h; exact absurd h (by simp)
        | ok s2 =>
          rw [h2] at h
          dsimp only at h
          refine ⟨s2, Or.inl ⟨hp, s1, h1, h2⟩, ?_⟩
          by_cases hq : s2.highPreparedSeqno.lastWriteSeqno =
              s.highPreparedSeqno.lastWriteSeqno
          · rw [if_pos hq] at h
            injection h with h
            exact Or.inl ⟨hq, h.symm⟩
          · rw [if_neg hq] at h
            by_cases hgt : s2.highPreparedSeqno.lastWriteSeqno >
                s.highPreparedSeqno.lastWriteSeqno
            · rw [if_pos hgt] at h
              injection h with h
              exact Or.inr ⟨hgt, h.symm⟩
            · rw [if_neg hgt] at h; exact absurd h (by simp)
    · rw [if_neg hp] at h
      dsimp only at h
      cases h2 : phase2 (s.trackedWrites.length + 1) s with
      | error e => rw [h2] at h; exact absurd h (by simp)
      | ok s2 =>
        rw [h2] at h
        dsimp only at h
        refine ⟨s2, Or.inr ⟨hp, h2⟩, ?_⟩
        by_cases hq : s2.highPreparedSeqno.lastWriteSeqno =
            s.highPreparedSeqno.lastWriteSeqno
        · rw [if_pos hq] at h
          injection h with h
          exact Or.inl ⟨hq, h.symm⟩
        · rw [if_neg hq] at h
          by_cases hgt : s2.highPreparedSeqno.lastWriteSeqno >
              s.highPreparedSeqno.lastWriteSeqno
          · rw [if_pos hgt] at h
            injection h with h
            exact Or.inr ⟨hgt, h.symm⟩
          · rw [if_neg hgt] at h; exact absurd h (by simp)

theorem updateHighPreparedSeqno_error_inv {p : Int} {s : State}
    {err : PdmError} {t : State}
    (h : s.updateHighPreparedSeqno p = .error (err, t)) : hpsOnly s t := by
  unfold State.updateHighPreparedSeqno at h
  by_cases he : s.trackedWrites.isEmpty = true
  · rw [if_pos he] at h; exact absurd h (by simp)
  · rw [if_neg he] at h
    dsimp only at h
    by_cases hp : p ≥ s.snapshotEnd
    · rw [if_pos hp] at h
      cases h1 : phase1 (s.trackedWrites.length + 1) s with
      | error e =>
        rw [h1] at h
        injection h with h
        obtain ⟨e1, e2⟩ := e
        have h1' := (phase1_frame _ s).2 e1 e2 h1
        cases h
        exact h1'
      | ok s1 =>
        rw [h1] at h
        dsimp only at h
        cases h2 : phase2 (s.trackedWrites.length + 1) s1 with
        | error e =>
          rw [h2] at h
          injection h with h
          obtain ⟨e1, e2⟩ := e
          have h2' := (phase2_frame _ s1).2 e1 e2 h2
          cases h
          exact hpsOnly_trans ((phase1_frame _ s).1 s1 h1) h2'
        | ok s2 =>
          rw [h2] at h
          dsimp only at h
          have hok := hpsOnly_trans ((phase1_frame _ s).1 s1 h1)
            ((phase2_frame _ s1).1 s2 h2)
          by_cases hq : s2.highPreparedSeqno.lastWriteSeqno =
              s.highPreparedSeqno.lastWriteSeqno
          · rw [if_pos hq] at h; exact absurd h (by simp)
          · rw [if_neg hq] at h
            by_cases hgt : s2.highPreparedSeqno.lastWriteSeqno >
                s.highPreparedSeqno.lastWriteSeqno
            · rw [if_pos hgt] at h; exact absurd h (by simp)
            · rw [if_neg hgt] at h
              injection h with h
              have ht : s2 = t := congrArg Prod.snd h
              exact ht ▸ hok
    · rw [if_neg hp] at h
      dsimp only at h
      cases h2 : phase2 (s.trackedWrites.length + 1) s with
      | error e =>
        rw [h2] at h
        injection h with h
        obtain ⟨e1, e2⟩ := e
        have h2' := (phase2_frame _ s).2 e1 e2 h2
        cases h
        exact h2'
      | ok s2 =>
        rw [h2] at h
        dsimp only at h
        have hok := (phase2_frame _ s).1 s2 h2
        by_cases hq : s2.highPreparedSeqno.lastWriteSeqno =
            s.highPreparedSeqno.lastWriteSeqno
        · rw [if_pos hq] at h; exact absurd h (by simp)
        · rw [if_neg hq] at h
          by_cases hgt : s2.highPreparedSeqno.lastWriteSeqno >
              s.highPreparedSeqno.lastWriteSeqno
          · rw [if_pos hgt] at h; exact absurd h (by simp)
          · rw [if_neg hgt] at h
            injection h with h
            have ht : s2 = t := congrArg Prod.snd h
            exact ht ▸ hok

theorem updateHighPreparedSeqno_frame {p : Int} {s s' : State}
    (h : s.updateHighPreparedSeqno p = .ok s') :
    s'.highCompletedSeqno.lastWriteSeqno = s.highCompletedSeqno.lastWriteSeqno ∧
    s'.snapshotEnd = s.snapshotEnd ∧
    s'.totalAccepted = s.totalAccepted ∧
    s'.totalCommitted = s.totalCommitted ∧
    s'.totalAborted = s.totalAborted ∧
    s.highPreparedSeqno.lastWriteSeqno ≤ s'.highPreparedSeqno.lastWriteSeqno := by
  rcases updateHighPreparedSeqno_ok_inv h with ⟨-, rfl⟩ | ⟨s2, hph, hfin⟩
  · exact ⟨rfl, rfl, rfl, rfl, rfl, le_refl _⟩
  · obtain ⟨f1, f2, f3, f4, f5, f6⟩ := phasesOk_hpsOnly hph
    rcases hfin with ⟨heq, rfl⟩ | ⟨hlt, rfl⟩
    · exact ⟨congrArg Position.lastWriteSeqno f2, f3, f4, f5, f6, le_of_eq heq.symm⟩
    · obtain ⟨p1, p2, p3, p4, p5, p6⟩ := prune_frame s2
      exact ⟨p2.trans (congrArg Position.lastWriteSeqno f2), p3.trans f3,
        p4.trans f4, p5.trans f5, p6.trans f6, le_of_lt (p1 ▸ hlt)⟩

theorem phase1_bound :
    ∀ (fuel : Nat) (s : State) (s' : State), phase1 fuel s = .ok s' →
      s'.highPreparedSeqno.lastWriteSeqno = s.highPreparedSeqno.lastWriteSeqno ∨
      ∃ w, w ∈ s.trackedWrites ∧ s'.highPreparedSeqno.lastWriteSeqno = w.bySeqno ∧
        toU64 w.bySeqno ≤ s.snapshotEnd := by
  intro fuel
  induction fuel with
  | zero =>
    intro s s' h
    simp only [phase1] at h
    injection h with h
    exact Or.inl (h ▸ rfl)
  | succ fuel ih =>
    intro s s' h
    rcases hne : s.nextElem s.highPreparedSeqno.it with _ | ⟨j, w⟩ <;>
      simp only [phase1, hne] at h
    · injection h with h
      exact Or.inl (h ▸ rfl)
    · by_cases hc : toU64 w.bySeqno ≤ s.snapshotEnd
      · rw [if_pos hc] at h
        cases hu : s.updateHPS (some j) w with
        | error e => rw [hu] at h; exact absurd h (by simp)
        | ok s1 =>
          rw [hu] at h
          have h1 := (updateHPS_ok hu).1
          have hmem := nextElem_mem hne
          rcases ih s1 s' h with heq | ⟨w', hw'mem, hw'eq, hw'le⟩
          · refine Or.inr ⟨w, hmem, ?_, hc⟩
            rw [heq, h1]
          · refine Or.inr ⟨w', ?_, hw'eq, ?_⟩
            · rw [h1] at hw'mem; exact hw'mem
            · rw [h1] at hw'le; exact hw'le
      · rw [if_neg hc] at h
        injection h with h
        exact Or.inl (h ▸ rfl)

theorem phase2_bound :
    ∀ (fuel : Nat) (s : State) (s' : State), phase2 fuel s = .ok s' →
      s'.highPreparedSeqno.lastWriteSeqno = s.highPreparedSeqno.lastWriteSeqno ∨
      ∃ w, w ∈ s.trackedWrites ∧ s'.highPreparedSeqno.lastWriteSeqno = w.bySeqno ∧
        toU64 w.bySeqno ≤ s.snapshotEnd := by
  intro fuel
  induction fuel with
  | zero =>
    intro s s' h
    simp only [phase2] at h
    injection h with h
    exact Or.inl (h ▸ rfl)
  | succ fuel ih =>
    intro s s' h
    rcases hne : s.nextElem s.highPreparedSeqno.it with _ | ⟨j, w⟩ <;>
      simp only [phase2, hne] at h
    · injection h with h
      exact Or.inl (h ▸ rfl)
    · by_cases hc : toU64 w.bySeqno ≤ s.snapshotEnd
      · rw [if_pos hc] at h
        by_cases hn : w.level = Level.None
        · rw [if_pos hn] at h; exact absurd h (by simp)
        · rw [if_neg hn] at h
          by_cases hpm : w.level = Level.PersistToMajority
          · rw [if_pos hpm] at h
            injection h with h
            exact Or.inl (h ▸ rfl)
          · rw [if_neg hpm] at h
            cases hu : s.updateHPS (some j) w with
            | error e => rw [hu] at h; exact absurd h (by simp)
            | ok s1 =>
              rw [hu] at h
              have h1 := (updateHPS_ok hu).1
              have hmem := nextElem_mem hne
              rcases ih s1 s' h with heq | ⟨w', hw'mem, hw'eq, hw'le⟩
              · refine Or.inr ⟨w, hmem, ?_, hc⟩
                rw [heq, h1]
              · refine Or.inr ⟨w', ?_, hw'eq, ?_⟩
                · rw [h1] at hw'mem; exact hw'mem
                · rw [h1] at hw'le; exact hw'le
      · rw [if_neg hc] at h
        injection h with h
        exact Or.inl (h ▸ rfl)

theorem updateHighPreparedSeqno_bound {p : Int} {s s' : State}
    (h : s.updateHighPreparedSeqno p = .ok s') :
    s'.highPreparedSeqno.lastWriteSeqno = s.highPreparedSeqno.lastWriteSeqno ∨
    ∃ w, w ∈ s.trackedWrites ∧ s'.highPreparedSeqno.lastWriteSeqno = w.bySeqno ∧
      toU64 w.bySeqno ≤ s.snapshotEnd := by
  rcases updateHighPreparedSeqno_ok_inv h with ⟨-, rfl⟩ | ⟨s2, hph, hfin⟩
  · exact Or.inl rfl
  · have hlws : s'.highPreparedSeqno.lastWriteSeqno =
        s2.highPreparedSeqno.lastWriteSeqno := by
      rcases hfin with ⟨-, rfl⟩ | ⟨-, rfl⟩
      · rfl
      · exact (prune_frame s2).1
    have hbound : s2.highPreparedSeqno.lastWriteSeqno =
        s.highPreparedSeqno.lastWriteSeqno ∨
        ∃ w, w ∈ s.trackedWrites ∧ s2.highPreparedSeqno.lastWriteSeqno = w.bySeqno ∧
          toU64 w.bySeqno ≤ s.snapshotEnd := by
      rcases hph with ⟨-, s1, h1, h2⟩ | ⟨-, h2⟩
      · obtain ⟨f1, f2, f3, f4, f5, f6⟩ := (phase1_frame _ s).1 s1 h1
        rcases phase2_bound _ s1 s2 h2 with heq | ⟨w, hmem, heqw, hle⟩
        · rcases phase1_bound _ s s1 h1 with heq1 | ⟨w, hmem, heqw, hle⟩
          · exact Or.inl (heq.trans heq1)
          · exact Or.inr ⟨w, hmem, heq.trans heqw, hle⟩
        · refine Or.inr ⟨w, ?_, heqw, ?_⟩
          · rw [← f1]; exact hmem
          · rw [← f3]; exact hle
      · exact phase2_bound _ s s2 h2
    rw [hlws]
    exact hbound


theorem phase2_halt :
    ∀ (fuel : Nat) (s : State), remainingSteps s < fuel →
      ∀ s', phase2 fuel s = .ok s' → phase2Blocked s' := by
  intro fuel
  induction fuel with
  | zero => intro s hf; exact absurd hf (Nat.not_lt_zero _)
  | succ fuel ih =>
    intro s hf s' h
    rcases hne : s.nextElem s.highPreparedSeqno.it with _ | ⟨j, w⟩ <;>
      simp only [phase2, hne] at h
    · injection h with h
      subst h
      unfold phase2Blocked
      rw [hne]
      exact trivial
    · by_cases hc : toU64 w.bySeqno ≤ s.snapshotEnd
      · rw [if_pos hc] at h
        by_cases hn : w.level = Level.None
        · rw [if_pos hn] at h; exact absurd h (by simp)
        · rw [if_neg hn] at h
          by_cases hpm : w.level = Level.PersistToMajority
          · rw [if_pos hpm] at h
            injection h with h
            subst h
            unfold phase2Blocked
            rw [hne]
            intro _
            exact hpm
          · rw [if_neg hpm] at h
            cases hu : s.updateHPS (some j) w with
            | error e => rw [hu] at h; exact absurd h (by simp)
            | ok s1 =>
              rw [hu] at h
              refine ih s1 ?_ s' h
              have h1 := (updateHPS_ok hu).1
              have hg := (nextElem_some hne).1
              rcases getIteratorNext_some hg with ⟨hit, hj, hpos⟩ | ⟨i, hit, hj, hlt⟩
              · subst hj
                have e1 : remainingSteps s = s.trackedWrites.length := by
                  unfold remainingSteps; simp [hit]
                have e2 : remainingSteps s1 = s.trackedWrites.length - 1 := by
                  subst h1; unfold remainingSteps; rfl
                omega
              · subst hj
                have e1 : remainingSteps s = s.trackedWrites.length - (i + 1) := by
                  unfold remainingSteps; simp [hit]
                have e2 : remainingSteps s1 = s.trackedWrites.length - (i + 2) := by
                  subst h1; unfold remainingSteps; rfl
                omega
      · rw [if_neg hc] at h
        injection h with h
        subst h
        unfold phase2Blocked
        rw [hne]
        intro hcc
        exact absurd hcc hc

theorem addSyncWrite_ok {item : Item} {s s' : State}
    (h : addSyncWrite item s = .ok s') :
    s' = { s with trackedWrites := s.trackedWrites ++ [item.toSyncWrite],
                  totalAccepted := s.totalAccepted + 1 } ∧
    item.level ≠ Level.None ∧ item.timeoutIsDefault = false := by
  unfold addSyncWrite at h
  by_cases hl : item.level = Level.None
  · rw [if_pos hl] at h; exact absurd h (by simp)
  · rw [if_neg hl] at h
    by_cases ht : item.timeoutIsDefault = true
    · rw [if_pos ht] at h; exact absurd h (by simp)
    · rw [if_neg ht] at h
      injection h with h
      exact ⟨h.symm, hl, by simpa using ht⟩

theorem addSyncWrite_error {item : Item} {s : State} {err : PdmError} {t : State}
    (h : addSyncWrite item s = .error (err, t)) :
    t = s ∧ err = .invalidArgument ∧
    (item.level = Level.None ∨ item.timeoutIsDefault = true) := by
  unfold addSyncWrite at h
  by_cases hl : item.level = Level.None
  · rw [if_pos hl] at h
    injection h with h
    exact ⟨(congrArg Prod.snd h).symm, (congrArg Prod.fst h).symm, Or.inl hl⟩
  · rw [if_neg hl] at h
    by_cases ht : item.timeoutIsDefault = true
    · rw [if_pos ht] at h
      injection h with h
      exact ⟨(congrArg Prod.snd h).symm, (congrArg Prod.fst h).symm, Or.inr ht⟩
    · rw [if_neg ht] at h; exact absurd h (by simp)

theorem addSyncWrite_error_iff (item : Item) (s : State) :
    (∃ t, addSyncWrite item s = .error (.invalidArgument, t)) ↔
    (item.level = Level.None ∨ item.timeoutIsDefault = true) := by
  constructor
  · rintro ⟨t, ht⟩
    exact (addSyncWrite_error ht).2.2
  · intro hcond
    by_cases hl : item.level = Level.None
    · exact ⟨s, by unfold addSyncWrite; rw [if_pos hl]⟩
    · have ht : item.timeoutIsDefault = true := hcond.resolve_left hl
      exact ⟨s, by unfold addSyncWrite; rw [if_neg hl, if_pos ht]⟩

theorem completeSyncWrite_error_state {key : Nat} {res : Resolution} {s : State}
    {err : PdmError} {t : State}
    (h : completeSyncWrite key res s = .error (err, t)) : t = s := by
  unfold completeSyncWrite at h
  by_cases he : s.trackedWrites.isEmpty = true
  · rw [if_pos he] at h
    injection h with h
    exact (congrArg Prod.snd h).symm
  · rw [if_neg he] at h
    rcases hne : s.nextElem s.highCompletedSeqno.it with _ | ⟨j, w⟩ <;>
      rw [hne] at h <;> dsimp only at h
    · injection h with h
      exact (congrArg Prod.snd h).symm
    · by_cases hk : w.key ≠ key
      · rw [if_pos hk] at h
        injection h with h
        exact (congrArg Prod.snd h).symm
      · rw [if_neg hk] at h
        cases hu : s.updateHCS (some j) w with
        | error e =>
          rw [hu] at h
          obtain ⟨e1, e2⟩ := e
          injection h with h
          have := (updateHCS_error (h ▸ hu)).1
          exact this
        | ok s1 =>
          rw [hu] at h
          dsimp only at h
          cases res <;> simp at h

theorem completeSyncWrite_logic_iff (key : Nat) (res : Resolution) (s : State) :
    (∃ t, completeSyncWrite key res s = .error (.logicError, t)) ↔
    (s.trackedWrites.isEmpty = true ∨
     s.getIteratorNext s.highCompletedSeqno.it = none ∨
     ∃ j w, s.nextElem s.highCompletedSeqno.it = some (j, w) ∧ w.key ≠ key) := by
  constructor
  · rintro ⟨t, h⟩
    unfold completeSyncWrite at h
    by_cases he : s.trackedWrites.isEmpty = true
    · exact Or.inl he
    · rw [if_neg he] at h
      rcases hne : s.nextElem s.highCompletedSeqno.it with _ | ⟨j, w⟩ <;>
        rw [hne] at h <;> dsimp only at h
      · exact Or.inr (Or.inl ((nextElem_eq_none_iff s _).mp hne))
      · by_cases hk : w.key ≠ key
        · exact Or.inr (Or.inr ⟨j, w, rfl, hk⟩)
        · rw [if_neg hk] at h
          cases hu : s.updateHCS (some j) w with
          | error e =>
            rw [hu] at h
            obtain ⟨e1, e2⟩ := e
            injection h with h
            have := (updateHCS_error (h ▸ hu)).2
            simp at this
          | ok s1 =>
            rw [hu] at h
            dsimp only at h
            cases res <;> simp at h
  · intro hcond
    by_cases he : s.trackedWrites.isEmpty = true
    · exact ⟨s, by unfold completeSyncWrite; rw [if_pos he]⟩
    · rcases hcond with hcond | hcond
      · exact absurd hcond he
      · rcases hne : s.nextElem s.highCompletedSeqno.it with _ | ⟨j, w⟩
        · exact ⟨s, by unfold completeSyncWrite; rw [if_neg he, hne]⟩
        · rcases hcond with hcond | ⟨j', w', hne', hk⟩
          · exact absurd ((nextElem_eq_none_iff s _).mpr hcond) (by rw [hne]; simp)
          · rw [hne] at hne'
            have hj : j' = j := (congrArg Prod.fst (Option.some.inj hne')).symm
            have hw : w' = w := (congrArg Prod.snd (Option.some.inj hne')).symm
            subst hj; subst hw
            refine ⟨s, ?_⟩
            unfold completeSyncWrite
            rw [if_neg he, hne]
            dsimp only
            rw [if_pos hk]

theorem completeSyncWrite_ok_inv {key : Nat} {res : Resolution} {s s' : State}
    (h : completeSyncWrite key res s = .ok s') :
    ∃ j w, s.nextElem s.highCompletedSeqno.it = some (j, w) ∧ w.key = key ∧
      s.highCompletedSeqno.lastWriteSeqno ≤ w.bySeqno ∧
      ∃ s2, s2 = ({ s with highCompletedSeqno :=
            { lastWriteSeqno := w.bySeqno, it := some j } }).checkForAndRemovePrepares ∧
        ((res = .Commit ∧ s' = { s2 with totalCommitted := s2.totalCommitted + 1 }) ∨
         (res = .Abort ∧ s' = { s2 with totalAborted := s2.totalAborted + 1 }) ∨
         (res = .CompletionWasDeduped ∧ s' = s2)) := by
  unfold completeSyncWrite at h
  by_cases he : s.trackedWrites.isEmpty = true
  · rw [if_pos he] at h; exact absurd h (by simp)
  · rw [if_neg he] at h
    rcases hne : s.nextElem s.highCompletedSeqno.it with _ | ⟨j, w⟩ <;>
      rw [hne] at h <;> dsimp only at h
    · exact absurd h (by simp)
    · by_cases hk : w.key ≠ key
      · rw [if_pos hk] at h; exact absurd h (by simp)
      · rw [if_neg hk] at h
        cases hu : s.updateHCS (some j) w with
        | error e => rw [hu] at h; exact absurd h (by simp)
        | ok s1 =>
          rw [hu] at h
          dsimp only at h
          obtain ⟨hs1, hle⟩ := updateHCS_ok hu
          refine ⟨j, w, rfl, by simpa using hk, hle,
            s1.checkForAndRemovePrepares, by rw [hs1], ?_⟩
          cases res with
          | Commit =>
            injection h with h
            exact Or.inl ⟨rfl, h.symm⟩
          | Abort =>
            injection h with h
            exact Or.inr (Or.inl ⟨rfl, h.symm⟩)
          | CompletionWasDeduped =>
            injection h with h
            exact Or.inr (Or.inr ⟨rfl, h.symm⟩)

theorem notifySnapshotEndReceived_ok_cases {p e : Int} {s s' : State} {a : List Int}
    (h : notifySnapshotEndReceived p e s = .ok (s', a)) :
    ∃ s0, s0 = { s with snapshotEnd := max s.snapshotEnd e } ∧
      s0.updateHighPreparedSeqno p = .ok s' ∧
      ((a = [] ∧ s'.highPreparedSeqno.lastWriteSeqno =
          s.highPreparedSeqno.lastWriteSeqno) ∨
       (a = [s'.highPreparedSeqno.lastWriteSeqno] ∧
        s.highPreparedSeqno.lastWriteSeqno < s'.highPreparedSeqno.lastWriteSeqno)) := by
  unfold notifySnapshotEndReceived at h
  dsimp only at h
  cases hu : State.updateHighPreparedSeqno p
      { s with snapshotEnd := max s.snapshotEnd e } with
  | error err => rw [hu] at h; exact absurd h (by simp)
  | ok s1 =>
    rw [hu] at h
    dsimp only at h
    by_cases hq : s1.highPreparedSeqno.lastWriteSeqno = s.highPreparedSeqno.lastWriteSeqno
    · rw [if_pos hq] at h
      injection h with h
      have hs : s1 = s' := congrArg Prod.fst h
      have ha : a = [] := (congrArg Prod.snd h).symm
      subst hs
      exact ⟨_, rfl, hu, Or.inl ⟨ha, hq⟩⟩
    · rw [if_neg hq] at h
      by_cases hgt : s1.highPreparedSeqno.lastWriteSeqno > s.highPreparedSeqno.lastWriteSeqno
      · rw [if_pos hgt] at h
        injection h with h
        have hs : s1 = s' := congrArg Prod.fst h
        have ha : a = [s1.highPreparedSeqno.lastWriteSeqno] := (congrArg Prod.snd h).symm
        subst hs
        exact ⟨_, rfl, hu, Or.inr ⟨ha, hgt⟩⟩
      · rw [if_neg hgt] at h; exact absurd h (by simp)

theorem notifySnapshotEndReceived_error_cases {p e : Int} {s : State}
    {err : PdmError} {t : State}
    (h : notifySnapshotEndReceived p e s = .error (err, t)) :
    t.snapshotEnd = max s.snapshotEnd e := by
  unfold notifySnapshotEndReceived at h
  dsimp only at h
  cases hu : State.updateHighPreparedSeqno p
      { s with snapshotEnd := max s.snapshotEnd e } with
  | error e0 =>
    rw [hu] at h
    obtain ⟨e1, e2⟩ := e0
    injection h with h
    have hfr := updateHighPreparedSeqno_error_inv (h ▸ hu)
    exact hfr.2.2.1
  | ok s1 =>
    rw [hu] at h
    dsimp only at h
    have hfr := (updateHighPreparedSeqno_frame hu).2.1
    by_cases hq : s1.highPreparedSeqno.lastWriteSeqno = s.highPreparedSeqno.lastWriteSeqno
    · rw [if_pos hq] at h; exact absurd h (by simp)
    · rw [if_neg hq] at h
      by_cases hgt : s1.highPreparedSeqno.lastWriteSeqno > s.highPreparedSeqno.lastWriteSeqno
      · rw [if_pos hgt] at h; exact absurd h (by simp)
      · rw [if_neg hgt] at h
        injection h with h
        have ht : s1 = t := congrArg Prod.snd h
        exact ht ▸ hfr

theorem notifyLocalPersistence_ok_cases {p : Int} {s s' : State} {a : List Int}
    (h : notifyLocalPersistence p s = .ok (s', a)) :
    s.updateHighPreparedSeqno p = .ok s' ∧
    ((a = [] ∧ s'.highPreparedSeqno.lastWriteSeqno =
        s.highPreparedSeqno.lastWriteSeqno) ∨
     (a = [s'.highPreparedSeqno.lastWriteSeqno] ∧
      s.highPreparedSeqno.lastWriteSeqno < s'.highPreparedSeqno.lastWriteSeqno)) := by
  unfold notifyLocalPersistence at h
  dsimp only at h
  cases hu : State.updateHighPreparedSeqno p s with
  | error err => rw [hu] at h; exact absurd h (by simp)
  | ok s1 =>
    rw [hu] at h
    dsimp only at h
    by_cases hq : s1.highPreparedSeqno.lastWriteSeqno = s.highPreparedSeqno.lastWriteSeqno
    · rw [if_pos hq] at h
      injection h with h
      have hs : s1 = s' := congrArg Prod.fst h
      have ha : a = [] := (congrArg Prod.snd h).symm
      subst hs
      exact ⟨rfl, Or.inl ⟨ha, hq⟩⟩
    · rw [if_neg hq] at h
      by_cases hgt : s1.highPreparedSeqno.lastWriteSeqno > s.highPreparedSeqno.lastWriteSeqno
      · rw [if_pos hgt] at h
        injection h with h
        have hs : s1 = s' := congrArg Prod.fst h
        have ha : a = [s1.highPreparedSeqno.lastWriteSeqno] := (congrArg Prod.snd h).symm
        subst hs
        exact ⟨rfl, Or.inr ⟨ha, hgt⟩⟩
      · rw [if_neg hgt] at h; exact absurd h (by simp)

theorem postProcessRollback_ok_inv {rb : RollbackResult} {s s' : State}
    (h : postProcessRollback rb s = .ok s') :
    rb.highCompletedSeqno ≤ rb.highPreparedSeqno ∧
    rb.highPreparedSeqno ≤ rb.highSeqno ∧
    s'.highCompletedSeqno = { lastWriteSeqno := rb.highCompletedSeqno, it := none } ∧
    s'.highPreparedSeqno.lastWriteSeqno = rb.highPreparedSeqno ∧
    s'.trackedWrites =
      (rb.preparesToAdd.reverse.foldl
        (fun tw item =>
          if toU64 item.bySeqno > rb.highCompletedSeqno then item.toSyncWrite :: tw
          else tw)
        s.trackedWrites).takeWhile (fun w => decide (toU64 w.bySeqno ≤ rb.highSeqno)) ∧
    (s'.trackedWrites ≠ [] →
      s'.highPreparedSeqno.it = some (s'.trackedWrites.length - 1)) ∧
    (s'.trackedWrites = [] → s'.highPreparedSeqno.it = s.highPreparedSeqno.it) := by
  unfold postProcessRollback at h
  by_cases h1 : ¬ rb.highCompletedSeqno ≤ rb.highPreparedSeqno
  · rw [if_pos h1] at h; exact absurd h (by simp)
  · rw [if_neg h1] at h
    by_cases h2 : ¬ rb.highPreparedSeqno ≤ rb.highSeqno
    · rw [if_pos h2] at h; exact absurd h (by simp)
    · rw [if_neg h2] at h
      dsimp only at h
      by_cases hnil :
          ((rb.preparesToAdd.reverse.foldl
              (fun tw item =>
                if toU64 item.bySeqno > rb.highCompletedSeqno then item.toSyncWrite :: tw
                else tw)
              s.trackedWrites).takeWhile
            (fun w => decide (toU64 w.bySeqno ≤ rb.highSeqno))).isEmpty = true
      · rw [if_pos hnil] at h
        injection h with h
        subst h
        refine ⟨not_not.mp h1, not_not.mp h2, rfl, rfl, rfl, ?_, fun _ => rfl⟩
        intro hne
        exact absurd (List.isEmpty_iff.mp hnil) hne
      · rw [if_neg hnil] at h
        injection h with h
        subst h
        refine ⟨not_not.mp h1, not_not.mp h2, rfl, rfl, rfl, fun _ => rfl, ?_⟩
        intro hzero
        dsimp only at hzero
        exact absurd (List.isEmpty_iff.mpr hzero) hnil

theorem completeSyncWrite_hps {key : Nat} {res : Resolution} {s s' : State}
    (h : completeSyncWrite key res s = .ok s') :
    s'.highPreparedSeqno.lastWriteSeqno = s.highPreparedSeqno.lastWriteSeqno ∧
    (s'.highPreparedSeqno.it = none ∨
     ∃ i j, s.highPreparedSeqno.it = some i ∧ s'.highPreparedSeqno.it = some j ∧
       s'.trackedWrites.get? j = s.trackedWrites.get? i) := by
  obtain ⟨j0, w, hne, hkey, hle, s2, hs2, hres⟩ := completeSyncWrite_ok_inv h
  have hhps : s'.highPreparedSeqno = s2.highPreparedSeqno := by
    rcases hres with ⟨-, rfl⟩ | ⟨-, rfl⟩ | ⟨-, rfl⟩ <;> rfl
  have htw : s'.trackedWrites = s2.trackedWrites := by
    rcases hres with ⟨-, rfl⟩ | ⟨-, rfl⟩ | ⟨-, rfl⟩ <;> rfl
  subst hs2
  rw [hhps, htw, checkForAndRemovePrepares_eq]
  dsimp only
  constructor
  · rfl
  · cases hit : s.highPreparedSeqno.it with
    | none => exact Or.inl rfl
    | some i =>
      by_cases hik : i < kRemoved { s with highCompletedSeqno :=
          { lastWriteSeqno := w.bySeqno, it := some j0 } }
      · refine Or.inl ?_
        simp [shiftIter, hik]
      · refine Or.inr ⟨i, i - kRemoved { s with highCompletedSeqno :=
          { lastWriteSeqno := w.bySeqno, it := some j0 } }, rfl, ?_, ?_⟩
        · simp [shiftIter, hik]
        · rw [dropWhile_eq_drop]
          have hk : kRemoved { s with highCompletedSeqno :=
              { lastWriteSeqno := w.bySeqno, it := some j0 } } ≤ i := le_of_not_lt hik
          rw [List.get?_drop]
          congr 1
          unfold kRemoved at hk ⊢
          dsimp only at hk ⊢
          omega

/-- Ack behaviour of one non-rollback public operation: either no ack and an
unchanged HPS seqno, or exactly one ack carrying the strictly increased HPS
seqno. -/
theorem runOp_ack_cases {s : State} {op : Op} {s' : State} {a : List Int}
    (hnr : op.isRollback = false) (h : runOp s op = .ok (s', a)) :
    (a = [] ∧ s'.highPreparedSeqno.lastWriteSeqno =
      s.highPreparedSeqno.lastWriteSeqno) ∨
    (a = [s'.highPreparedSeqno.lastWriteSeqno] ∧
     s.highPreparedSeqno.lastWriteSeqno < s'.highPreparedSeqno.lastWriteSeqno) := by
  cases op with
  | add item =>
    simp only [runOp] at h
    cases ha : addSyncWrite item s with
    | error e => rw [ha] at h; exact absurd h (by simp)
    | ok s1 =>
      rw [ha] at h
      dsimp only at h
      injection h with h
      have hs : s1 = s' := congrArg Prod.fst h
      have haa : [] = a := congrArg Prod.snd h
      subst hs
      refine Or.inl ⟨haa.symm, ?_⟩
      rw [(addSyncWrite_ok ha).1]
  | complete key res =>
    simp only [runOp] at h
    cases hc : completeSyncWrite key res s with
    | error e => rw [hc] at h; exact absurd h (by simp)
    | ok s1 =>
      rw [hc] at h
      dsimp only at h
      injection h with h
      have hs : s1 = s' := congrArg Prod.fst h
      have haa : [] = a := congrArg Prod.snd h
      subst hs
      exact Or.inl ⟨haa.symm, (completeSyncWrite_hps hc).1⟩
  | snapshotEndReceived p e =>
    simp only [runOp] at h
    obtain ⟨s0, -, -, hcases⟩ := notifySnapshotEndReceived_ok_cases h
    exact hcases
  | localPersistence p =>
    simp only [runOp] at h
    exact (notifyLocalPersistence_ok_cases h).2
  | rollback rb => simp [Op.isRollback] at hnr

theorem runOps_chain :
    ∀ (ops : List Op) (s : State), (∀ op ∈ ops, op.isRollback = false) →
      ∀ s' acks, runOps s ops = .ok (s', acks) →
      List.Chain' (fun x y : Int => x < y)
        (s.highPreparedSeqno.lastWriteSeqno :: acks) ∧
      s'.highPreparedSeqno.lastWriteSeqno =
        acks.getLastD s.highPreparedSeqno.lastWriteSeqno := by
  intro ops
  induction ops with
  | nil =>
    intro s hnr s' acks h
    simp only [runOps] at h
    injection h with h
    have hs : s = s' := congrArg Prod.fst h
    have ha : [] = acks := congrArg Prod.snd h
    subst hs
    rw [← ha]
    exact ⟨List.chain'_singleton _, rfl⟩
  | cons op ops ih =>
    intro s hnr s' acks h
    simp only [runOps] at h
    cases h1 : runOp s op with
    | error e => rw [h1] at h; exact absurd h (by simp)
    | ok pr =>
      obtain ⟨s1, a1⟩ := pr
      rw [h1] at h
      dsimp only at h
      cases h2 : runOps s1 ops with
      | error e => rw [h2] at h; exact absurd h (by simp)
      | ok pr2 =>
        obtain ⟨s2, a2⟩ := pr2
        rw [h2] at h
        dsimp only at h
        injection h with h
        have hs : s2 = s' := congrArg Prod.fst h
        have ha : a1 ++ a2 = acks := congrArg Prod.snd h
        subst hs
        have hops : ∀ op2 ∈ ops, op2.isRollback = false :=
          fun o ho => hnr o (List.mem_cons_of_mem _ ho)
        have hop : op.isRollback = false := hnr op (List.mem_cons_self _ _)
        obtain ⟨hchain, hlast⟩ := ih s1 hops _ a2 h2
        rcases runOp_ack_cases hop h1 with ⟨ha1, heq⟩ | ⟨ha1, hlt⟩
        · subst ha1
          rw [List.nil_append] at ha
          subst ha
          rw [heq] at hchain hlast
          exact ⟨hchain, hlast⟩
        · subst ha1
          rw [List.singleton_append] at ha
          subst ha
          constructor
          · exact List.chain'_cons.mpr ⟨hlt, hchain⟩
          · rw [List.getLastD_cons]
            exact hlast

/-- C1: HPS advancement respects the durability fence and the snapshot
boundary. Concretely, from trackedWrites = 1(Majority), 2(PersistToMajority),
3(Majority) with HPS 0, notifySnapshotEndReceived(3) under persistence seqno
0 advances HPS to exactly 1 and acks exactly once with 1; once the
persistence seqno reaches 3, notifyLocalPersistence advances HPS to exactly 3
and acks exactly once with 3. In general, a successful
updateHighPreparedSeqno either leaves the HPS seqno unchanged or lands it on
the seqno of a tracked prepare lying within the received snapshot (so HPS
never passes an entry with bySeqno above snapshotEnd), and Phase 2 halts
exactly when the next entry is the end, lies past the snapshot, or is a
PersistToMajority durability fence. -/
theorem hps_respects_fence_and_snapshot :
    (notifySnapshotEndReceived 0 3 scenarioC1 = .ok (scenarioC1Mid, [1]) ∧
     scenarioC1Mid.highPreparedSeqno.lastWriteSeqno = 1 ∧
     notifyLocalPersistence 3 scenarioC1Mid = .ok (scenarioC1End, [3]) ∧
     scenarioC1End.highPreparedSeqno.lastWriteSeqno = 3) ∧
    (∀ (p : Int) (s s' : State), s.updateHighPreparedSeqno p = .ok s' →
       s'.highPreparedSeqno.lastWriteSeqno = s.highPreparedSeqno.lastWriteSeqno ∨
       ∃ w, w ∈ s.trackedWrites ∧ s'.highPreparedSeqno.lastWriteSeqno = w.bySeqno ∧
         toU64 w.bySeqno ≤ s.snapshotEnd) ∧
    (∀ (s s' : State), phase2 (s.trackedWrites.length + 1) s = .ok s' →
       phase2Blocked s') := by
  refine ⟨⟨by decide, by decide, by decide, by decide⟩, ?_, ?_⟩
  · intro p s s' h
    exact updateHighPreparedSeqno_bound h
  · intro s s' h
    refine phase2_halt _ s ?_ s' h
    unfold remainingSteps
    omega

/-- Witness for C1: the general snapshot bound applied to the concrete
persistence-driven advance of the scenario. -/
theorem hps_respects_fence_and_snapshot_witness :
    scenarioC1End.highPreparedSeqno.lastWriteSeqno =
      scenarioC1Mid.highPreparedSeqno.lastWriteSeqno ∨
    ∃ w, w ∈ scenarioC1Mid.trackedWrites ∧
      scenarioC1End.highPreparedSeqno.lastWriteSeqno = w.bySeqno ∧
      toU64 w.bySeqno ≤ scenarioC1Mid.snapshotEnd :=
  hps_respects_fence_and_snapshot.2.1 3 scenarioC1Mid scenarioC1End (by decide)

/-- C2 counterexample: the spec invariant S1 (HCS ≤ HPS at all externally
visible moments) fails on the code: after adding 1(M), 2(M), receiving
snapshot end 1 (HPS = 1, ack(1)) and completing both prepares in order, the
final state has HCS = 2 > HPS = 1, and no operation threw. -/
theorem hcs_exceeds_hps_counterexample :
    acksOf (runOps pdmInitial opsC2) = some [1] ∧
    (finalStateOf (runOps pdmInitial opsC2)).map getHighCompletedSeqno = some 2 ∧
    (finalStateOf (runOps pdmInitial opsC2)).map getHighPreparedSeqno = some 1 ∧
    ¬ ((2 : Int) ≤ (1 : Int)) := by
  refine ⟨by decide, by decide, by decide, by decide⟩

/-- C2 amended: every public operation except completeSyncWrite preserves
HCS.lastWriteSeqno ≤ HPS.lastWriteSeqno (and a successful postProcessRollback
re-establishes it from its own precondition); completeSyncWrite may push HCS
past HPS. -/
theorem hcs_le_hps_preserved_without_complete :
    ∀ (s : State) (op : Op) (s' : State) (a : List Int),
      op.isComplete = false → runOp s op = .ok (s', a) →
      s.highCompletedSeqno.lastWriteSeqno ≤ s.highPreparedSeqno.lastWriteSeqno →
      s'.highCompletedSeqno.lastWriteSeqno ≤ s'.highPreparedSeqno.lastWriteSeqno := by
  intro s op s' a hnc h hle
  cases op with
  | add item =>
    simp only [runOp] at h
    cases ha : addSyncWrite item s with
    | error e => rw [ha] at h; exact absurd h (by simp)
    | ok s1 =>
      rw [ha] at h
      dsimp only at h
      injection h with h
      have hs : s1 = s' := congrArg Prod.fst h
      subst hs
      rw [(addSyncWrite_ok ha).1]
      exact hle
  | complete key res => simp [Op.isComplete] at hnc
  | snapshotEndReceived p e =>
    simp only [runOp] at h
    obtain ⟨s0, hs0, hup, -⟩ := notifySnapshotEndReceived_ok_cases h
    have hfr := updateHighPreparedSeqno_frame hup
    have h1 : s'.highCompletedSeqno.lastWriteSeqno =
        s.highCompletedSeqno.lastWriteSeqno := by
      rw [hfr.1, hs0]
    have h2 : s.highPreparedSeqno.lastWriteSeqno ≤
        s'.highPreparedSeqno.lastWriteSeqno := by
      have hm := hfr.2.2.2.2.2
      rw [hs0] at hm
      exact hm
    rw [h1]
    exact le_trans hle h2
  | localPersistence p =>
    simp only [runOp] at h
    obtain ⟨hup, -⟩ := notifyLocalPersistence_ok_cases h
    have hfr := updateHighPreparedSeqno_frame hup
    rw [hfr.1]
    exact le_trans hle hfr.2.2.2.2.2
  | rollback rb =>
    simp only [runOp] at h
    cases hr : postProcessRollback rb s with
    | error e => rw [hr] at h; exact absurd h (by simp)
    | ok s1 =>
      rw [hr] at h
      dsimp only at h
      injection h with h
      have hs : s1 = s' := congrArg Prod.fst h
      subst hs
      obtain ⟨hg1, -, hhcs, hhps, -⟩ := postProcessRollback_ok_inv hr
      rw [hhps, congrArg Position.lastWriteSeqno hhcs]
      exact hg1

/-- Witness for C2 (amended): a notifyLocalPersistence call on the empty
initial monitor preserves HCS ≤ HPS. -/
theorem hcs_le_hps_preserved_without_complete_witness :
    pdmInitial.highCompletedSeqno.lastWriteSeqno ≤
      pdmInitial.highPreparedSeqno.lastWriteSeqno :=
  hcs_le_hps_preserved_without_complete pdmInitial (Op.localPersistence 0)
    pdmInitial [] (by decide) (by decide) (by decide)

/-- C3: notifySnapshotEndReceived stores max(snapshotEnd, snapEnd) — whether
the call returns or throws from the advancement that follows the store — so a
strictly smaller snapEnd leaves the stored boundary unchanged: it never
decreases. -/
theorem notifySnapshotEnd_snapshotEnd_is_max :
    ∀ (p e : Int) (s : State),
      (∀ s' a, notifySnapshotEndReceived p e s = .ok (s', a) →
        s'.snapshotEnd = max s.snapshotEnd e) ∧
      (∀ err t, notifySnapshotEndReceived p e s = .error (err, t) →
        t.snapshotEnd = max s.snapshotEnd e) ∧
      (e < s.snapshotEnd →
        ∀ s' a, notifySnapshotEndReceived p e s = .ok (s', a) →
          s'.snapshotEnd = s.snapshotEnd) := by
  intro p e s
  refine ⟨?_, ?_, ?_⟩
  · intro s' a h
    obtain ⟨s0, hs0, hup, -⟩ := notifySnapshotEndReceived_ok_cases h
    have hfr := (updateHighPreparedSeqno_frame hup).2.1
    rw [hfr, hs0]
  · intro err t h
    exact notifySnapshotEndReceived_error_cases h
  · intro hlt s' a h
    obtain ⟨s0, hs0, hup, -⟩ := notifySnapshotEndReceived_ok_cases h
    have hfr := (updateHighPreparedSeqno_frame hup).2.1
    rw [hfr, hs0]
    dsimp only
    exact max_eq_left (le_of_lt hlt)

/-- Witness for C3: snapshot end 5 received on a monitor that stored 3. -/
theorem notifySnapshotEnd_snapshotEnd_is_max_witness :
    sSnap5.snapshotEnd = max sSnap3.snapshotEnd 5 :=
  (notifySnapshotEnd_snapshotEnd_is_max 0 5 sSnap3).1 sSnap5 [] (by decide)

/-- C4: evaluating postProcessRollback at the failing input. With two tracked
Majority prepares and the HPS cursor on the second one, a rollback to seqno 0
(preconditions satisfied) empties trackedWrites, but the HPS cursor is NOT
reset to the end sentinel: the code only repositions it when the container is
non-empty, so it keeps the stale index 1 (a dangling iterator in the C++
source), where the claim and the spec say it must equal the end sentinel. -/
theorem postProcessRollback_dangling_cursor :
    rbC4.highCompletedSeqno ≤ rbC4.highPreparedSeqno ∧
    rbC4.highPreparedSeqno ≤ rbC4.highSeqno ∧
    postProcessRollback rbC4 sC4 = .ok sC4after ∧
    sC4after.trackedWrites = [] ∧
    sC4after.highPreparedSeqno.it = some 1 ∧
    sC4after.highPreparedSeqno.it ≠ none := by
  refine ⟨by decide, by decide, by decide, by decide, by decide, by decide⟩

/-- C5 amended: checkForAndRemovePrepares removes exactly the leading entries
with bySeqno at most min(HCS, HPS).lastWriteSeqno, repositions a cursor to
the end sentinel exactly when it pointed into the removed prefix (a retained
cursor keeps designating the same entry), leaves both lastWriteSeqnos, the
snapshot boundary and all counters unchanged, and on a seqno-sorted container
every surviving entry is strictly above the fence. The claim's further
assertion that this bound holds after EVERY public operation fails:
addSyncWrite appends an item without any seqno check (see
`tracked_entry_at_or_below_fence`). -/
theorem checkForAndRemovePrepares_spec :
    ∀ s : State,
      s.checkForAndRemovePrepares.trackedWrites =
        s.trackedWrites.dropWhile (fun w => decide (w.bySeqno ≤ pruneFence s)) ∧
      s.checkForAndRemovePrepares.highCompletedSeqno.it =
        shiftIter (kRemoved s) s.highCompletedSeqno.it ∧
      s.checkForAndRemovePrepares.highPreparedSeqno.it =
        shiftIter (kRemoved s) s.highPreparedSeqno.it ∧
      s.checkForAndRemovePrepares.highPreparedSeqno.lastWriteSeqno =
        s.highPreparedSeqno.lastWriteSeqno ∧
      s.checkForAndRemovePrepares.highCompletedSeqno.lastWriteSeqno =
        s.highCompletedSeqno.lastWriteSeqno ∧
      s.checkForAndRemovePrepares.snapshotEnd = s.snapshotEnd ∧
      s.checkForAndRemovePrepares.totalAccepted = s.totalAccepted ∧
      s.checkForAndRemovePrepares.totalCommitted = s.totalCommitted ∧
      s.checkForAndRemovePrepares.totalAborted = s.totalAborted ∧
      (seqnoSorted s.trackedWrites →
        ∀ w ∈ s.checkForAndRemovePrepares.trackedWrites, pruneFence s < w.bySeqno) := by
  intro s
  rw [checkForAndRemovePrepares_eq]
  refine ⟨rfl, rfl, rfl, rfl, rfl, rfl, rfl, rfl, rfl, ?_⟩
  intro hsort w hw
  exact sorted_dropWhile_fence (pruneFence s) s.trackedWrites hsort w hw

/-- Witness for C5 (amended): pruning `sPrune` leaves only entries above the
fence. -/
theorem checkForAndRemovePrepares_spec_witness :
    ∀ w ∈ sPrune.checkForAndRemovePrepares.trackedWrites,
      pruneFence sPrune < w.bySeqno :=
  (checkForAndRemovePrepares_spec sPrune).2.2.2.2.2.2.2.2.2 (by decide)

/-- C5 counterexample: a single public addSyncWrite of a prepare with bySeqno
0 into the fresh monitor leaves an entry whose bySeqno is NOT strictly above
min(HPS, HCS).lastWriteSeqno, refuting the claim's “after every public
operation” clause. -/
theorem tracked_entry_at_or_below_fence :
    (finalStateOf (runOps pdmInitial opsC5)).map
      (fun t => decide (∀ w ∈ t.trackedWrites, pruneFence t < w.bySeqno)) =
      some false := by
  decide

/-- C6: completeSyncWrite raises LogicError exactly when trackedWrites is
empty, or next(HCS.cursor) is the end sentinel, or the designated prepare's
key differs from the completed key; and every failing call (the LogicError
cases as well as a monotonicity failure on the HCS seqno write) leaves the
State exactly as it was, because the seqno is written before the cursor and
before any removal or counter increment. -/
theorem completeSyncWrite_error_spec :
    ∀ (key : Nat) (res : Resolution) (s : State),
      ((∃ t, completeSyncWrite key res s = .error (.logicError, t)) ↔
        (s.trackedWrites.isEmpty = true ∨
         s.getIteratorNext s.highCompletedSeqno.it = none ∨
         ∃ j w, s.nextElem s.highCompletedSeqno.it = some (j, w) ∧ w.key ≠ key)) ∧
      (∀ err t, completeSyncWrite key res s = .error (err, t) → t = s) :=
  fun key res s =>
    ⟨completeSyncWrite_logic_iff key res s,
     fun _ _ h => completeSyncWrite_error_state h⟩

/-- Witness for C6: completing against the empty initial monitor raises
LogicError. -/
theorem completeSyncWrite_error_spec_witness :
    ∃ t, completeSyncWrite 7 Resolution.Commit pdmInitial =
      .error (.logicError, t) :=
  (completeSyncWrite_error_spec 7 Resolution.Commit pdmInitial).1.mpr
    (Or.inl (by decide))

/-- C7 counterexample: across a sequence containing a postProcessRollback the
ack values are NOT strictly increasing: the trace emits ack(2), rolls back to
HPS 1, and emits ack(2) again. -/
theorem acks_repeat_after_rollback :
    acksOf (runOps pdmInitial opsC7) = some [2, 2] ∧
    ¬ List.Chain' (fun x y : Int => x < y) [2, 2] := by
  refine ⟨by decide, ?_⟩
  intro hch
  exact absurd (List.chain'_cons.mp hch).1 (by decide)

/-- C7 amended: every operation acks only when HPS strictly increased during
it, always with the new HPS value, and never acks otherwise; along any
rollback-free sequence the emitted ack values are strictly increasing (a
postProcessRollback may reset HPS downward and let a later ack repeat an
earlier value). -/
theorem sendSeqnoAck_emission_spec :
    (∀ (s : State) (op : Op) (s' : State) (a : List Int),
       runOp s op = .ok (s', a) →
       a = [] ∨ (a = [s'.highPreparedSeqno.lastWriteSeqno] ∧
         s.highPreparedSeqno.lastWriteSeqno < s'.highPreparedSeqno.lastWriteSeqno)) ∧
    (∀ (ops : List Op) (s : State), (∀ op ∈ ops, op.isRollback = false) →
       ∀ s' acks, runOps s ops = .ok (s', acks) →
       List.Chain' (fun x y : Int => x < y)
         (s.highPreparedSeqno.lastWriteSeqno :: acks)) := by
  constructor
  · intro s op s' a h
    cases hro : op.isRollback with
    | false =>
      rcases runOp_ack_cases hro h with ⟨ha, -⟩ | ⟨ha, hlt⟩
      · exact Or.inl ha
      · exact Or.inr ⟨ha, hlt⟩
    | true =>
      cases op with
      | rollback rb =>
        simp only [runOp] at h
        cases hr : postProcessRollback rb s with
        | error e => rw [hr] at h; exact absurd h (by simp)
        | ok s1 =>
          rw [hr] at h
          dsimp only at h
          injection h with h
          exact Or.inl (congrArg Prod.snd h).symm
      | add item => simp [Op.isRollback] at hro
      | complete key res => simp [Op.isRollback] at hro
      | snapshotEndReceived p e => simp [Op.isRollback] at hro
      | localPersistence p => simp [Op.isRollback] at hro
  · intro ops s hnr s' acks h
    exact (runOps_chain ops s hnr s' acks h).1

/-- Witness for C7 (amended): the rollback-free trace `opsW7` yields the
strictly increasing ack chain 0 < 1. -/
theorem sendSeqnoAck_emission_spec_witness :
    List.Chain' (fun x y : Int => x < y)
      (pdmInitial.highPreparedSeqno.lastWriteSeqno :: [1]) :=
  sendSeqnoAck_emission_spec.2 opsW7 pdmInitial (by decide) sW7 [1] (by decide)

/-- C8: addSyncWrite raises InvalidArgument, with the State untouched,
exactly when the item's level is None or its timeout is the default;
otherwise it appends the prepare at the back of trackedWrites (which keeps
the container seqno-sorted whenever the appended seqno exceeds every tracked
one), increments totalAccepted by one, and leaves the HPS (and every other
field) unchanged. -/
theorem addSyncWrite_spec :
    ∀ (item : Item) (s : State),
      ((∃ t, addSyncWrite item s = .error (.invalidArgument, t)) ↔
        (item.level = Level.None ∨ item.timeoutIsDefault = true)) ∧
      (∀ err t, addSyncWrite item s = .error (err, t) →
        t = s ∧ err = .invalidArgument) ∧
      (∀ s', addSyncWrite item s = .ok s' →
        s'.trackedWrites = s.trackedWrites ++ [item.toSyncWrite] ∧
        s'.totalAccepted = s.totalAccepted + 1 ∧
        s'.highPreparedSeqno = s.highPreparedSeqno ∧
        s'.highCompletedSeqno = s.highCompletedSeqno ∧
        s'.snapshotEnd = s.snapshotEnd ∧
        s'.totalCommitted = s.totalCommitted ∧
        s'.totalAborted = s.totalAborted ∧
        (seqnoSorted s.trackedWrites →
          (∀ w ∈ s.trackedWrites, w.bySeqno < item.bySeqno) →
          seqnoSorted s'.trackedWrites)) := by
  intro item s
  refine ⟨addSyncWrite_error_iff item s,
    fun err t h => ⟨(addSyncWrite_error h).1, (addSyncWrite_error h).2.1⟩, ?_⟩
  intro s' h
  obtain ⟨hs, -, -⟩ := addSyncWrite_ok h
  subst hs
  refine ⟨rfl, rfl, rfl, rfl, rfl, rfl, rfl, ?_⟩
  intro hsort hgt
  dsimp only
  unfold seqnoSorted
  rw [List.pairwise_append]
  refine ⟨hsort, List.pairwise_singleton _ _, ?_⟩
  intro a ha b hb
  rw [List.mem_singleton] at hb
  subst hb
  exact hgt a ha

/-- Witness for C8: a Level::None item is rejected with InvalidArgument. -/
theorem addSyncWrite_spec_witness :
    ∃ t, addSyncWrite itemNone pdmInitial = .error (.invalidArgument, t) :=
  (addSyncWrite_spec itemNone pdmInitial).1.mpr (Or.inl rfl)

/-- The warmup fold appends each supplied prepare to the accumulator without
touching any counter. -/
theorem warmupFold_ok :
    ∀ (l : List Item) (s0 : State), (∀ p ∈ l, p.timeoutIsDefault = false) →
      l.foldlM
        (fun s p =>
          if p.timeoutIsDefault then
            Except.error (PdmError.expectationViolation, s)
          else
            Except.ok { s with trackedWrites := s.trackedWrites ++ [p.toSyncWrite] })
        s0 =
      Except.ok { s0 with
        trackedWrites := s0.trackedWrites ++ l.map Item.toSyncWrite } := by
  intro l
  induction l with
  | nil =>
    intro s0 _
    simp only [List.foldlM, List.map_nil, List.append_nil]
    rfl
  | cons p l ih =>
    intro s0 hp
    have hp0 : p.timeoutIsDefault = false := hp p (List.mem_cons_self _ _)
    have hl : ∀ q ∈ l, q.timeoutIsDefault = false :=
      fun q hq => hp q (List.mem_cons_of_mem _ hq)
    rw [List.foldlM_cons, hp0]
    simp only [Bool.false_eq_true, if_false]
    rw [show (Except.ok { s0 with
          trackedWrites := s0.trackedWrites ++ [p.toSyncWrite] } >>= fun s =>
            List.foldlM _ s l : Except (PdmError × State) State) =
        List.foldlM _ { s0 with
          trackedWrites := s0.trackedWrites ++ [p.toSyncWrite] } l from rfl]
    rw [ih _ hl]
    simp [List.append_assoc]

/-- C9: the warmup constructor populates trackedWrites with all supplied
prepares (each with a non-default timeout) but never touches totalAccepted:
right after construction getNumAccepted() is 0 while getNumTracked() is the
number of supplied prepares, so the former can be strictly smaller. -/
theorem warmup_populates_without_accepting :
    ∀ prepares : List Item, (∀ p ∈ prepares, p.timeoutIsDefault = false) →
      ∃ s, pdmInitWithOutstanding prepares = .ok s ∧
        getNumAccepted s = 0 ∧
        getNumTracked s = prepares.length ∧
        s.trackedWrites = prepares.map Item.toSyncWrite ∧
        (prepares ≠ [] → getNumAccepted s < getNumTracked s) := by
  intro prepares h
  refine ⟨{ pdmInitial with trackedWrites := prepares.map Item.toSyncWrite }, ?_,
    rfl, ?_, rfl, ?_⟩
  · unfold pdmInitWithOutstanding
    rw [warmupFold_ok prepares pdmInitial h]
    simp [pdmInitial]
  · simp [getNumTracked]
  · intro hne
    have : 0 < prepares.length := List.length_pos.mpr hne
    simp [getNumAccepted, getNumTracked, pdmInitial]
    omega

/-- Witness for C9: warming up with one outstanding prepare gives
getNumAccepted 0 < getNumTracked 1. -/
theorem warmup_populates_without_accepting_witness :
    ∃ s, pdmInitWithOutstanding [mItem 1 1] = .ok s ∧
      getNumAccepted s = 0 ∧
      getNumTracked s = [mItem 1 1].length ∧
      s.trackedWrites = [mItem 1 1].map Item.toSyncWrite ∧
      ([mItem 1 1] ≠ [] → getNumAccepted s < getNumTracked s) :=
  warmup_populates_without_accepting [mItem 1 1] (by decide)

/-- C10: completeSyncWrite never changes highPreparedSeqno.lastWriteSeqno —
on success or on failure — and the only HPS field it may touch is the
cursor: after a successful call the cursor either designates the same
trackedWrites entry as before (its index shifted by the pruned prefix) or has
been reset to the end sentinel by the pruning of the entry it pointed at. -/
theorem completeSyncWrite_hps_frame :
    ∀ (key : Nat) (res : Resolution) (s : State),
      (∀ s', completeSyncWrite key res s = .ok s' →
        s'.highPreparedSeqno.lastWriteSeqno = s.highPreparedSeqno.lastWriteSeqno ∧
        (s'.highPreparedSeqno.it = none ∨
         ∃ i j, s.highPreparedSeqno.it = some i ∧
           s'.highPreparedSeqno.it = some j ∧
           s'.trackedWrites.get? j = s.trackedWrites.get? i)) ∧
      (∀ err t, completeSyncWrite key res s = .error (err, t) →
        t.highPreparedSeqno = s.highPreparedSeqno) :=
  fun key res s =>
    ⟨fun _ h => completeSyncWrite_hps h,
     fun _ _ h => by rw [completeSyncWrite_error_state h]⟩

/-- Witness for C10: completing key 1 on `sC4` prunes entry 1; the HPS seqno
stays 2 and the cursor still designates the prepare at seqno 2 (now at index
0). -/
theorem completeSyncWrite_hps_frame_witness :
    sC10res.highPreparedSeqno.lastWriteSeqno =
      sC4.highPreparedSeqno.lastWriteSeqno ∧
    (sC10res.highPreparedSeqno.it = none ∨
     ∃ i j, sC4.highPreparedSeqno.it = some i ∧
       sC10res.highPreparedSeqno.it = some j ∧
       sC10res.trackedWrites.get? j = sC4.trackedWrites.get? i) :=
  (completeSyncWrite_hps_frame 1 Resolution.Commit sC4).1 sC10res (by decide)


end PassiveDurabilityMonitor
